import Mathlib

/-!
Verification of the Astormer text-to-SQL core (relation-aware decoder attention,
graph-attention encoder layers, ON-LSTM recurrent stack) against its
natural-language specification.

The Python source is shallowly embedded over `ℚ`:

* tensors become index functions (`ℕ → ℚ`, `ℕ → ℕ → ℚ`, ...) together with
  explicit size parameters; `torch` reductions (`einsum`, `matmul`, `sum`)
  become explicit finite sums (`sumF`);
* the real-valued transcendental primitives that the code calls
  (`exp` inside `softmax`, `rsqrt` inside `LayerNorm`, `sigmoid`, `tanh`,
  and the per-block scale factor `√(hidden_size / num_heads)`) are threaded
  through as parameters, since they are irrational on `ℚ`; theorems quantify
  over them (with positivity where a claim needs it);
* dropout masks and DropConnect masks are randomness, so they are passed in
  as explicit multiplier/mask tensors ("identical dropout randomness" in a
  two-run statement means the same multiplier tensors in both runs);
* `None`-able arguments become `Option`; construction-time `assert`/`raise`
  becomes `Except String`.

Each definition carries a comment pointing to the file/function of the
source it embeds.
-/

/-- Finite sum of `f 0 + f 1 + ... + f (n-1)`; the ℚ-level meaning of the
tensor contractions (`einsum`, `matmul`, `torch.sum`) in the source. -/
def sumF : ℕ → (ℕ → ℚ) → ℚ
  | 0, _ => 0
  | n + 1, f => sumF n f + f n

/-- `model/model_utils.py, make_relative_positions`: the inner
`list(range(i + 1, 0, -1))`, i.e. the descending list `[n, n-1, ..., 1]`. -/
def descList : ℕ → List ℕ
  | 0 => []
  | n + 1 => (n + 1) :: descList n

/-- `model/model_utils.py, make_relative_positions` (lines 14-28):
row `i` is `range(i+1, 0, -1)` padded with `t - i - 1` zeros, and the whole
matrix is passed through `torch.clamp(·, max=clamp)` (elementwise `min`). -/
def make_relative_positions (t clamp : ℕ) : List (List ℕ) :=
  (List.range t).map (fun i =>
    ((descList (i + 1)) ++ List.replicate (t - i - 1) 0).map (fun v => min v clamp))

/-- Entry `(i, j)` of the relative-position matrix (0 outside the lists,
matching a reader that defaults out-of-range accesses). -/
def relPosEntry (t clamp i j : ℕ) : ℕ :=
  ((make_relative_positions t clamp).getD i []).getD j 0

/-- `model/decoder/decoder_cell.py, Astormer.__init__` (lines 186-198):
`assert self.hidden_size % self.num_heads == 0` — construction fails on a
hidden size that the number of heads does not divide. On success the head
dimension `hidden_size // num_heads` (the relation-embedding width) is fixed. -/
def astormerInit (hidden_size num_heads : ℕ) : Except String ℕ :=
  if hidden_size % num_heads = 0 then Except.ok (hidden_size / num_heads)
  else Except.error "AssertionError: hidden_size % num_heads != 0"

/-- `model/decoder/decoder_cell.py, ONLSTMCell.__init__` (lines 471-482):
`if self.hidden_size % self.chunk_num != 0: raise ValueError(...)`; on
success `chunk_size = int(hidden_size / chunk_num)` is fixed. -/
def onlstmCellInit (hidden_size chunk_num : ℕ) : Except String ℕ :=
  if hidden_size % chunk_num ≠ 0 then
    Except.error "[Error]: chunk number must be divided by hidden size in ONLSTM Cell"
  else Except.ok (hidden_size / chunk_num)

/-- Helper: whether an `Except` is a success. -/
def exceptOk {ε α : Type} : Except ε α → Bool
  | Except.ok _ => true
  | Except.error _ => false

-- ## Lemmas about `descList` and `make_relative_positions`

theorem descList_length (n : ℕ) : (descList n).length = n := by
  induction n with
  | zero => rfl
  | succ k ih => simp [descList, ih]

theorem descList_getD (n j : ℕ) (hj : j < n) : (descList n).getD j 0 = n - j := by
  induction n generalizing j with
  | zero => omega
  | succ k ih =>
    cases j with
    | zero => simp [descList]
    | succ m =>
      have hm : m < k := by omega
      simpa [descList, List.getD] using ih m hm

/-- C10: the claim's closed form for every in-range entry, plus the bound by
`clamp` and the strict upper-triangle zeros. -/
theorem relPosEntry_eq (t c i j : ℕ) (ht : 0 < t) (hc : 0 < c)
    (hi : i < t) (hj : j < t) :
    relPosEntry t c i j = (if j ≤ i then min (i - j + 1) c else 0) ∧
    relPosEntry t c i j ≤ c ∧ (i < j → relPosEntry t c i j = 0) := by
  have hrow : (make_relative_positions t c).getD i [] =
      ((descList (i + 1)) ++ List.replicate (t - i - 1) 0).map (fun v => min v c) := by
    unfold make_relative_positions
    rw [List.getD_eq_getElem?_getD]
    simp [hi]
  have hentry : relPosEntry t c i j = (if j ≤ i then min (i - j + 1) c else 0) := by
    unfold relPosEntry
    rw [hrow]
    by_cases hle : j ≤ i
    · have hjlen : j < (descList (i + 1)).length := by
        rw [descList_length]; omega
      have hget : ((descList (i + 1)) ++ List.replicate (t - i - 1) 0).getD j 0 =
          (descList (i + 1)).getD j 0 := by
        rw [List.getD_eq_getElem?_getD, List.getD_eq_getElem?_getD,
          List.getElem?_append_left hjlen]
      have hmap : (((descList (i + 1)) ++ List.replicate (t - i - 1) 0).map
          (fun v => min v c)).getD j 0 =
          min (((descList (i + 1)) ++ List.replicate (t - i - 1) 0).getD j 0) c := by
        rw [List.getD_eq_getElem?_getD, List.getD_eq_getElem?_getD, List.getElem?_map]
        have hjlen' : j < ((descList (i + 1)) ++ List.replicate (t - i - 1) 0).length := by
          simp [descList_length]; omega
        rw [List.getElem?_eq_getElem hjlen']
        simp
      rw [hmap, hget, descList_getD (i + 1) j (by omega)]
      simp [hle]
      congr 1
      omega
    · have hjlen' : j < ((descList (i + 1)) ++ List.replicate (t - i - 1) 0).length := by
        simp [descList_length]; omega
      have hmap : (((descList (i + 1)) ++ List.replicate (t - i - 1) 0).map
          (fun v => min v c)).getD j 0 =
          min (((descList (i + 1)) ++ List.replicate (t - i - 1) 0).getD j 0) c := by
        rw [List.getD_eq_getElem?_getD, List.getD_eq_getElem?_getD, List.getElem?_map]
        rw [List.getElem?_eq_getElem hjlen']
        simp
      have hgetr : ((descList (i + 1)) ++ List.replicate (t - i - 1) 0).getD j 0 = 0 := by
        rw [List.getD_eq_getElem?_getD, List.getElem?_append_right
          (by rw [descList_length]; omega)]
        have : j - (descList (i + 1)).length < t - i - 1 := by
          rw [descList_length]; omega
        simp [List.getElem?_replicate, this]
      rw [hmap, hgetr]
      simp [hle]
  refine ⟨hentry, ?_, ?_⟩
  · rw [hentry]
    by_cases hle : j ≤ i <;> simp [hle, min_le_right]
  · intro hlt
    rw [hentry]
    simp [Nat.not_le.mpr hlt]

/-- C10 witness: concrete instance `t = 3`, `clamp = 2`, entry `(2, 0)`. -/
theorem relPosEntry_eq_witness :
    0 < 3 ∧ 0 < 2 ∧ 2 < 3 ∧ 0 < 3 ∧
    (relPosEntry 3 2 2 0 = (if 0 ≤ 2 then min (2 - 0 + 1) 2 else 0) ∧
      relPosEntry 3 2 2 0 ≤ 2 ∧ (2 < 0 → relPosEntry 3 2 2 0 = 0)) :=
  ⟨by decide, by decide, by decide, by decide,
    relPosEntry_eq 3 2 2 0 (by decide) (by decide) (by decide) (by decide)⟩

/-- C9: with a positive head count and chunk count, the Astormer constructor
succeeds exactly when `num_heads` divides `hidden_size`, and the ONLSTM cell
constructor succeeds exactly when `chunk_num` divides `hidden_size`; in the
violating cases construction returns an error before any forward call. -/
theorem construction_divisibility (hs heads chunk : ℕ)
    (hheads : 0 < heads) (hchunk : 0 < chunk) :
    (exceptOk (astormerInit hs heads) = true ↔ hs % heads = 0) ∧
    (exceptOk (onlstmCellInit hs chunk) = true ↔ hs % chunk = 0) := by
  constructor
  · unfold astormerInit
    by_cases h : hs % heads = 0 <;> simp [h, exceptOk]
  · unfold onlstmCellInit
    by_cases h : hs % chunk = 0 <;> simp [h, exceptOk]

/-- C9 witness: `hidden_size = 8`, `heads = 2`, `chunk = 4` (both divide). -/
theorem construction_divisibility_witness :
    0 < 2 ∧ 0 < 4 ∧
    ((exceptOk (astormerInit 8 2) = true ↔ 8 % 2 = 0) ∧
      (exceptOk (onlstmCellInit 8 4) = true ↔ 8 % 4 = 0)) :=
  ⟨by decide, by decide, construction_divisibility 8 2 4 (by decide) (by decide)⟩

-- ## Softmax, cumulative softmax and the ON-LSTM cell
-- (`model/decoder/decoder_cell.py`, lines 303-304 and 469-521)

/-- `torch.softmax` along a row of length `n`, with the real exponential
abstracted as the parameter `E`. -/
def softmaxRow (E : ℚ → ℚ) (n : ℕ) (x : ℕ → ℚ) (j : ℕ) : ℚ :=
  E (x j) / sumF n (fun k => E (x k))

/-- `decoder_cell.py, cumsoftmax` (lines 303-304):
`torch.cumsum(F.softmax(x, dim), dim)` — entry `i` is the partial sum of the
softmax up to and including index `i`. -/
def cumsoftmax (E : ℚ → ℚ) (n : ℕ) (x : ℕ → ℚ) (i : ℕ) : ℚ :=
  sumF (i + 1) (fun k => softmaxRow E n x k)

/-- `ONLSTMCell.forward` (line 500): `gates = transformed_inputs + self.hh(h0)`,
with the recurrent affine `self.hh` given by its (already mask-resolved) weight
matrix `hhW` and bias `hhB`, and `hidden_size = chunkSize * chunkNum`. -/
def onlstmGates (chunkSize chunkNum : ℕ) (hhW : ℕ → ℕ → ℚ) (hhB : ℕ → ℚ)
    (transformed : ℕ → ℕ → ℚ) (h0 : ℕ → ℕ → ℚ) (b k : ℕ) : ℚ :=
  transformed b k + (sumF (chunkSize * chunkNum) (fun j => hhW k j * h0 b j) + hhB k)

/-- `ONLSTMCell.forward` (lines 501, 505): `cingate = gates[:, :chunk_size]`
then `cingate = 1. - cumsoftmax(cingate)`. -/
def onlstmCingate (E : ℚ → ℚ) (chunkSize chunkNum : ℕ) (hhW : ℕ → ℕ → ℚ)
    (hhB : ℕ → ℚ) (transformed h0 : ℕ → ℕ → ℚ) (b s : ℕ) : ℚ :=
  1 - cumsoftmax E chunkSize
    (fun k => onlstmGates chunkSize chunkNum hhW hhB transformed h0 b k) s

/-- `ONLSTMCell.forward` (lines 501, 506):
`cforgetgate = cumsoftmax(gates[:, chunk_size:chunk_size*2])`. -/
def onlstmCforgetgate (E : ℚ → ℚ) (chunkSize chunkNum : ℕ) (hhW : ℕ → ℕ → ℚ)
    (hhB : ℕ → ℚ) (transformed h0 : ℕ → ℕ → ℚ) (b s : ℕ) : ℚ :=
  cumsoftmax E chunkSize
    (fun k => onlstmGates chunkSize chunkNum hhW hhB transformed h0 b (chunkSize + k)) s

/-- `ONLSTMCell.forward` (line 515): `overlap = cforgetgate * cingate`
(both broadcast over the `chunk_num` axis, so indexed by the chunk-size
coordinate `s` alone). -/
def onlstmOverlap (E : ℚ → ℚ) (chunkSize chunkNum : ℕ) (hhW : ℕ → ℕ → ℚ)
    (hhB : ℕ → ℚ) (transformed h0 : ℕ → ℕ → ℚ) (b s : ℕ) : ℚ :=
  onlstmCforgetgate E chunkSize chunkNum hhW hhB transformed h0 b s *
    onlstmCingate E chunkSize chunkNum hhW hhB transformed h0 b s

/-- `ONLSTMCell.forward` (lines 502-521), remaining computation:
the four standard gate pre-activations live at flat offsets
`2*chunk_size + r*chunk_num + c` with row blocks `[0,cs)`, `[cs,2cs)`,
`[2cs,3cs)`, `[3cs,4cs)` for in/forget/out/candidate; the output pair is
re-flattened row-major. `σf`/`τf` abstract `torch.sigmoid`/`torch.tanh`. -/
def onlstmForward (E σf τf : ℚ → ℚ) (chunkSize chunkNum : ℕ)
    (hhW : ℕ → ℕ → ℚ) (hhB : ℕ → ℚ) (transformed h0 c0 : ℕ → ℕ → ℚ) :
    (ℕ → ℕ → ℚ) × (ℕ → ℕ → ℚ) :=
  let gates := onlstmGates chunkSize chunkNum hhW hhB transformed h0
  let overlap := onlstmOverlap E chunkSize chunkNum hhW hhB transformed h0
  let cfg := onlstmCforgetgate E chunkSize chunkNum hhW hhB transformed h0
  let cig := onlstmCingate E chunkSize chunkNum hhW hhB transformed h0
  let fg := fun b s c => σf (gates b (2 * chunkSize + (chunkSize + s) * chunkNum + c)) *
    overlap b s + (cfg b s - overlap b s)
  let ig := fun b s c => σf (gates b (2 * chunkSize + s * chunkNum + c)) *
    overlap b s + (cig b s - overlap b s)
  let og := fun b s c => σf (gates b (2 * chunkSize + (2 * chunkSize + s) * chunkNum + c))
  let cand := fun b s c => τf (gates b (2 * chunkSize + (3 * chunkSize + s) * chunkNum + c))
  let c1 := fun b s c => fg b s c * c0 b (s * chunkNum + c) + ig b s c * cand b s c
  (fun b k => og b (k / chunkNum) (k % chunkNum) * τf (c1 b (k / chunkNum) (k % chunkNum)),
    fun b k => c1 b (k / chunkNum) (k % chunkNum))

-- ## Arithmetic lemmas about `sumF`

theorem sumF_nonneg (n : ℕ) (f : ℕ → ℚ) (h : ∀ k, k < n → 0 ≤ f k) :
    0 ≤ sumF n f := by
  induction n with
  | zero => simp [sumF]
  | succ m ih =>
    have h1 : 0 ≤ sumF m f := ih (fun k hk => h k (Nat.lt_succ_of_lt hk))
    have h2 : 0 ≤ f m := h m (Nat.lt_succ_self m)
    simpa [sumF] using add_nonneg h1 h2

theorem sumF_pos (n : ℕ) (f : ℕ → ℚ) (hn : 0 < n) (h : ∀ k, k < n → 0 < f k) :
    0 < sumF n f := by
  cases n with
  | zero => omega
  | succ m =>
    have h1 : 0 ≤ sumF m f := sumF_nonneg m f (fun k hk => le_of_lt (h k (Nat.lt_succ_of_lt hk)))
    have h2 : 0 < f m := h m (Nat.lt_succ_self m)
    simpa [sumF] using add_pos_of_nonneg_of_pos h1 h2

theorem sumF_mono_len (m n : ℕ) (f : ℕ → ℚ) (hmn : m ≤ n)
    (h : ∀ k, k < n → 0 ≤ f k) : sumF m f ≤ sumF n f := by
  induction n with
  | zero =>
    have : m = 0 := Nat.le_zero.mp hmn
    simp [this]
  | succ p ih =>
    rcases Nat.lt_or_ge m (p + 1) with hlt | hge
    · have h1 : sumF m f ≤ sumF p f :=
        ih (Nat.lt_succ_iff.mp hlt) (fun k hk => h k (Nat.lt_succ_of_lt hk))
      have h2 : 0 ≤ f p := h p (Nat.lt_succ_self p)
      calc sumF m f ≤ sumF p f := h1
        _ ≤ sumF p f + f p := le_add_of_nonneg_right h2
        _ = sumF (p + 1) f := by simp [sumF]
    · have : m = p + 1 := le_antisymm hmn hge
      simp [this]

theorem sumF_div (n : ℕ) (f : ℕ → ℚ) (c : ℚ) :
    sumF n (fun k => f k / c) = sumF n f / c := by
  induction n with
  | zero => simp [sumF]
  | succ m ih => simp [sumF, ih, add_div]

theorem sumF_congr (n : ℕ) (f g : ℕ → ℚ) (h : ∀ k, k < n → f k = g k) :
    sumF n f = sumF n g := by
  induction n with
  | zero => rfl
  | succ m ih =>
    simp only [sumF]
    rw [ih (fun k hk => h k (Nat.lt_succ_of_lt hk)), h m (Nat.lt_succ_self m)]

/-- C6: for every positive abstract exponential, the cumulative softmax is
non-negative, monotonically non-decreasing along its axis, and bounded by 1;
consequently the `overlap` tensor of `ONLSTMCell.forward` is element-wise at
most the minimum of the master forget gate and the master input gate. -/
theorem cumsoftmax_monotone_bounds_and_overlap (E : ℚ → ℚ) (hE : ∀ y, 0 < E y) :
    (∀ (n : ℕ) (x : ℕ → ℚ) (i j : ℕ), i ≤ j → j < n →
      0 ≤ cumsoftmax E n x i ∧ cumsoftmax E n x i ≤ cumsoftmax E n x j ∧
        cumsoftmax E n x j ≤ 1) ∧
    (∀ (chunkSize chunkNum : ℕ) (hhW : ℕ → ℕ → ℚ) (hhB : ℕ → ℚ)
      (transformed h0 : ℕ → ℕ → ℚ) (b s : ℕ), s < chunkSize →
      onlstmOverlap E chunkSize chunkNum hhW hhB transformed h0 b s ≤
        min (onlstmCforgetgate E chunkSize chunkNum hhW hhB transformed h0 b s)
          (onlstmCingate E chunkSize chunkNum hhW hhB transformed h0 b s)) := by
  have hrow : ∀ (n : ℕ) (x : ℕ → ℚ) (k : ℕ), 0 < n → 0 ≤ softmaxRow E n x k := by
    intro n x k hn
    unfold softmaxRow
    exact div_nonneg (le_of_lt (hE (x k)))
      (le_of_lt (sumF_pos n _ hn (fun m _ => hE (x m))))
  have hbase : ∀ (n : ℕ) (x : ℕ → ℚ) (i j : ℕ), i ≤ j → j < n →
      0 ≤ cumsoftmax E n x i ∧ cumsoftmax E n x i ≤ cumsoftmax E n x j ∧
        cumsoftmax E n x j ≤ 1 := by
    intro n x i j hij hjn
    have hn : 0 < n := lt_of_le_of_lt (Nat.zero_le j) hjn
    refine ⟨?_, ?_, ?_⟩
    · exact sumF_nonneg _ _ (fun k _ => hrow n x k hn)
    · exact sumF_mono_len (i + 1) (j + 1) _ (by omega) (fun k _ => hrow n x k hn)
    · unfold cumsoftmax softmaxRow
      rw [sumF_div]
      have hS : 0 < sumF n (fun k => E (x k)) := sumF_pos n _ hn (fun m _ => hE (x m))
      rw [div_le_one hS]
      exact sumF_mono_len (j + 1) n _ (by omega) (fun k _ => le_of_lt (hE (x k)))
  refine ⟨hbase, ?_⟩
  intro cs cn hhW hhB tr h0 b s hs
  have hcs : 0 < cs := lt_of_le_of_lt (Nat.zero_le s) hs
  have hf := hbase cs (fun k => onlstmGates cs cn hhW hhB tr h0 b (cs + k)) s s le_rfl hs
  have hi := hbase cs (fun k => onlstmGates cs cn hhW hhB tr h0 b k) s s le_rfl hs
  have hcf0 : 0 ≤ onlstmCforgetgate E cs cn hhW hhB tr h0 b s := hf.1
  have hcf1 : onlstmCforgetgate E cs cn hhW hhB tr h0 b s ≤ 1 := hf.2.2
  have hci0 : 0 ≤ onlstmCingate E cs cn hhW hhB tr h0 b s := by
    unfold onlstmCingate
    have := hi.2.2
    linarith
  have hci1 : onlstmCingate E cs cn hhW hhB tr h0 b s ≤ 1 := by
    unfold onlstmCingate
    have := hi.1
    linarith
  refine le_min ?_ ?_
  · unfold onlstmOverlap
    exact mul_le_of_le_one_right hcf0 hci1
  · unfold onlstmOverlap
    exact mul_le_of_le_one_left hci0 hcf1

/-- C6 witness: `E = const 1`, chunk size 2, chunk count 3, concrete zero
pre-activations and states, position `s = 1`. -/
theorem cumsoftmax_monotone_bounds_and_overlap_witness :
    (∀ y : ℚ, 0 < (1 : ℚ)) ∧ (0 ≤ 1 ∧ 1 < 4) ∧ (1 < 2) ∧
    (0 ≤ cumsoftmax (fun _ => 1) 4 (fun _ => 0) 0 ∧
      cumsoftmax (fun _ => 1) 4 (fun _ => 0) 0 ≤ cumsoftmax (fun _ => 1) 4 (fun _ => 0) 1 ∧
      cumsoftmax (fun _ => 1) 4 (fun _ => 0) 1 ≤ 1) ∧
    (onlstmOverlap (fun _ => 1) 2 3 (fun _ _ => 0) (fun _ => 0)
        (fun _ _ => 0) (fun _ _ => 0) 0 1 ≤
      min (onlstmCforgetgate (fun _ => 1) 2 3 (fun _ _ => 0) (fun _ => 0)
          (fun _ _ => 0) (fun _ _ => 0) 0 1)
        (onlstmCingate (fun _ => 1) 2 3 (fun _ _ => 0) (fun _ => 0)
          (fun _ _ => 0) (fun _ _ => 0) 0 1)) :=
  ⟨fun _ => one_pos, ⟨by decide, by decide⟩, by decide,
    (cumsoftmax_monotone_bounds_and_overlap (fun _ => 1) (fun _ => one_pos)).1
      4 (fun _ => 0) 0 1 (by decide) (by decide),
    (cumsoftmax_monotone_bounds_and_overlap (fun _ => 1) (fun _ => one_pos)).2
      2 3 (fun _ _ => 0) (fun _ => 0) (fun _ _ => 0) (fun _ _ => 0) 0 1 (by decide)⟩

-- ## LinearDropConnect (`model/decoder/decoder_cell.py`, lines 307-330)

/-- `F.linear(inputs, weight, bias)` on one input row of width `c`:
output entry `i` is the dot product of weight row `i` with the input plus
the bias. -/
def flinearQ (c : ℕ) (W : ℕ → ℕ → ℚ) (bias : ℕ → ℚ) (x : ℕ → ℚ) (i : ℕ) : ℚ :=
  sumF c (fun j => W i j * x j) + bias i

/-- `LinearDropConnect.forward` (lines 324-330): in training mode the weight
is the sampled-mask weight `self._weight = weight.masked_fill(mask, 0.)`
(`sample_mask`, lines 315-321: `mask.bernoulli_(self.dropconnect)` marks an
entry for zeroing with probability `p`); in inference mode the weight is
`self.weight * (1 - self.dropconnect)`. -/
def dropConnectForward (training : Bool) (c : ℕ) (p : ℚ) (W : ℕ → ℕ → ℚ)
    (bias : ℕ → ℚ) (maskAt : ℕ → ℕ → Bool) (x : ℕ → ℚ) (i : ℕ) : ℚ :=
  if training then
    flinearQ c (fun i' j => if maskAt i' j then 0 else W i' j) bias x i
  else
    flinearQ c (fun i' j => W i' j * (1 - p)) bias x i

/-- Expectation over `n` independent Bernoulli(p) mask bits, presented as a
prefix list: bit value `true` (meaning "zero this weight entry") has
probability `p`. -/
def expMask (p : ℚ) : ℕ → (List Bool → ℚ) → ℚ
  | 0, f => f []
  | n + 1, f =>
    p * expMask p n (fun bs => f (true :: bs)) +
      (1 - p) * expMask p n (fun bs => f (false :: bs))

theorem expMask_const (p : ℚ) (n : ℕ) (a : ℚ) :
    expMask p n (fun _ => a) = a := by
  induction n with
  | zero => rfl
  | succ m ih => simp only [expMask, ih]; ring

theorem expMask_add (p : ℚ) (n : ℕ) (f g : List Bool → ℚ) :
    expMask p n (fun bs => f bs + g bs) = expMask p n f + expMask p n g := by
  induction n generalizing f g with
  | zero => rfl
  | succ m ih => simp only [expMask, ih]; ring

theorem expMask_sumF (p : ℚ) (n k : ℕ) (F : ℕ → List Bool → ℚ) :
    expMask p n (fun bs => sumF k (fun j => F j bs)) =
      sumF k (fun j => expMask p n (fun bs => F j bs)) := by
  induction k with
  | zero => simp [sumF, expMask_const]
  | succ m ih =>
    simp only [sumF]
    rw [← ih, ← expMask_add p n (fun bs => sumF m (fun j => F j bs)) (fun bs => F m bs)]

theorem expMask_getD (p : ℚ) (n k : ℕ) (φ : Bool → ℚ) (hk : k < n) :
    expMask p n (fun bs => φ (bs.getD k false)) = p * φ true + (1 - p) * φ false := by
  induction n generalizing k with
  | zero => omega
  | succ m ih =>
    cases k with
    | zero =>
      simp only [expMask, List.getD]
      simp [expMask_const]
    | succ k' =>
      have hk' : k' < m := by omega
      simp only [expMask, List.getD_cons_succ]
      rw [ih k' hk']
      ring

/-- C7: in inference mode `LinearDropConnect.forward` computes exactly
`F.linear(inputs, weight * (1 - p), bias)`, and that inference-mode output
equals the expectation, over the Bernoulli(p) DropConnect mask of the whole
`r × c` weight matrix (one mask held fixed for the call), of the
training-mode forward. -/
theorem dropconnect_inference_is_expectation (r c : ℕ) (p : ℚ)
    (W : ℕ → ℕ → ℚ) (bias : ℕ → ℚ) (m₀ : ℕ → ℕ → Bool) (x : ℕ → ℚ)
    (i : ℕ) (hi : i < r) :
    dropConnectForward false c p W bias m₀ x i =
      flinearQ c (fun i' j => W i' j * (1 - p)) bias x i ∧
    expMask p (r * c)
        (fun bs => dropConnectForward true c p W bias
          (fun i' j => bs.getD (i' * c + j) false) x i) =
      dropConnectForward false c p W bias m₀ x i := by
  refine ⟨rfl, ?_⟩
  unfold dropConnectForward flinearQ
  simp only [if_true, Bool.false_eq_true, if_false]
  have hsum : expMask p (r * c)
      (fun bs => sumF c (fun j =>
        (if bs.getD (i * c + j) false then 0 else W i j) * x j) + bias i) =
      expMask p (r * c) (fun bs => sumF c (fun j =>
        (if bs.getD (i * c + j) false then 0 else W i j) * x j)) + bias i := by
    rw [expMask_add p (r * c) _ (fun _ => bias i), expMask_const]
  rw [hsum, expMask_sumF]
  have hterm : ∀ j, j < c →
      expMask p (r * c) (fun bs =>
        (if bs.getD (i * c + j) false then 0 else W i j) * x j) =
      W i j * (1 - p) * x j := by
    intro j hj
    have hidx : i * c + j < r * c := by
      calc i * c + j < i * c + c := by omega
        _ = (i + 1) * c := by ring
        _ ≤ r * c := Nat.mul_le_mul_right c (by omega)
    rw [expMask_getD p (r * c) (i * c + j)
      (fun b => (if b then 0 else W i j) * x j) hidx]
    simp
    ring
  have : sumF c (fun j =>
      expMask p (r * c) (fun bs =>
        (if bs.getD (i * c + j) false then 0 else W i j) * x j)) =
      sumF c (fun j => W i j * (1 - p) * x j) :=
    sumF_congr c _ _ hterm
  rw [this]

/-- C7 witness: `r = 2`, `c = 2`, `p = 1/2`, concrete weights and input,
output row 1. -/
theorem dropconnect_inference_is_expectation_witness :
    1 < 2 ∧
    (dropConnectForward false 2 (1/2) (fun _ _ => 3) (fun _ => 1)
        (fun _ _ => false) (fun _ => 2) 1 =
      flinearQ 2 (fun i' j => (fun _ _ => (3:ℚ)) i' j * (1 - 1/2)) (fun _ => 1)
        (fun _ => 2) 1 ∧
    expMask (1/2) (2 * 2)
        (fun bs => dropConnectForward true 2 (1/2) (fun _ _ => 3) (fun _ => 1)
          (fun i' j => bs.getD (i' * 2 + j) false) (fun _ => 2) 1) =
      dropConnectForward false 2 (1/2) (fun _ _ => 3) (fun _ => 1)
        (fun _ _ => false) (fun _ => 2) 1) :=
  ⟨by decide,
    dropconnect_inference_is_expectation 2 2 (1/2) (fun _ _ => 3) (fun _ => 1)
      (fun _ _ => false) (fun _ => 2) 1 (by decide)⟩

-- ## LockedDropout and the recurrent stack driver
-- (`model/decoder/decoder_cell.py`, lines 333-412)

/-- `LockedDropout.forward` (lines 352-361): in eval mode, with zero rate, or
at the final layer index (`layer == self.num_layers - 1`) the input is
returned unchanged; otherwise the input is multiplied by the per-layer mask
`self.masks[layer]` of shape `bs × 1 × hidden` (sampled once per call in
`sample_masks`, lines 343-349), expanded over the time axis, with an optional
`prev_idx` batch re-indexing of the mask rows. -/
def lockedDropoutForward (training : Bool) (dropout : ℚ) (numLayers : ℕ)
    (masks : ℕ → ℕ → ℕ → ℚ) (layer : ℕ) (prevIdx : Option (ℕ → ℕ))
    (x : ℕ → ℕ → ℕ → ℚ) : ℕ → ℕ → ℕ → ℚ :=
  if training = false ∨ dropout = 0 ∨ layer = numLayers - 1 then x
  else fun b t h =>
    (match prevIdx with
      | none => masks layer b h
      | some f => masks layer (f b) h) * x b t h

/-- `RecurrentNeuralNetwork.forward` (lines 393-401), inner time loop of one
layer: starting from the carried state, step `t` feeds the projected input
row at time `t` into the cell; `runCell cell trans init t` is the state after
`t` steps. -/
def runCell (cell : (ℕ → ℕ → ℚ) → (ℕ → ℕ → ℚ) × (ℕ → ℕ → ℚ) →
      (ℕ → ℕ → ℚ) × (ℕ → ℕ → ℚ))
    (trans : ℕ → ℕ → ℕ → ℚ) (init : (ℕ → ℕ → ℚ) × (ℕ → ℕ → ℚ)) :
    ℕ → (ℕ → ℕ → ℚ) × (ℕ → ℕ → ℚ)
  | 0 => init
  | t + 1 => cell (fun b k => trans b t k) (runCell cell trans init t)

/-- `RecurrentNeuralNetwork.forward` (lines 384-406): `rnnLayerIn l` is the
tensor `prev_layer` as it is fed INTO layer `l` — the raw inputs for layer 0,
and for layer `l + 1` the locked-dropout image of layer `l`'s stacked hidden
states (`prev_layer = self.locked_dropout(prev_layer, layer=l, ...)`).
`cellF l` is `self.cells[l]` applied to one time step's transformed inputs
and the carried state, `transF l` is the whole-sequence input projection
`self.cells[l].ih(prev_layer)`. -/
def rnnLayerIn (training : Bool) (dropout : ℚ) (numLayers : ℕ)
    (masks : ℕ → ℕ → ℕ → ℚ) (prevIdx : Option (ℕ → ℕ))
    (cellF : ℕ → (ℕ → ℕ → ℚ) → (ℕ → ℕ → ℚ) × (ℕ → ℕ → ℚ) →
      (ℕ → ℕ → ℚ) × (ℕ → ℕ → ℚ))
    (transF : ℕ → (ℕ → ℕ → ℕ → ℚ) → ℕ → ℕ → ℕ → ℚ)
    (h0 c0 : ℕ → ℕ → ℕ → ℚ) (inputs : ℕ → ℕ → ℕ → ℚ) :
    ℕ → ℕ → ℕ → ℕ → ℚ
  | 0 => inputs
  | l + 1 => lockedDropoutForward training dropout numLayers masks l prevIdx
      (fun b t f => (runCell (cellF l)
        (transF l (rnnLayerIn training dropout numLayers masks prevIdx
          cellF transF h0 c0 inputs l))
        (fun b' k => h0 l b' k, fun b' k => c0 l b' k) (t + 1)).1 b f)

/-- The stacked hidden states produced by layer `l` itself
(`torch.stack(curr_layer, dim=1)` in line 402), before inter-layer dropout. -/
def rnnLayerRaw (training : Bool) (dropout : ℚ) (numLayers : ℕ)
    (masks : ℕ → ℕ → ℕ → ℚ) (prevIdx : Option (ℕ → ℕ))
    (cellF : ℕ → (ℕ → ℕ → ℚ) → (ℕ → ℕ → ℚ) × (ℕ → ℕ → ℚ) →
      (ℕ → ℕ → ℚ) × (ℕ → ℕ → ℚ))
    (transF : ℕ → (ℕ → ℕ → ℕ → ℚ) → ℕ → ℕ → ℕ → ℚ)
    (h0 c0 : ℕ → ℕ → ℕ → ℚ) (inputs : ℕ → ℕ → ℕ → ℚ) (l : ℕ) :
    ℕ → ℕ → ℕ → ℚ :=
  fun b t f => (runCell (cellF l)
    (transF l (rnnLayerIn training dropout numLayers masks prevIdx
      cellF transF h0 c0 inputs l))
    (fun b' k => h0 l b' k, fun b' k => c0 l b' k) (t + 1)).1 b f

/-- `RecurrentNeuralNetwork.forward` line 408: `outputs = prev_layer` after
the loop over all `num_layers` layers, i.e. the value fed "into" a
hypothetical layer `num_layers`. -/
def rnnDriverOutputs (training : Bool) (dropout : ℚ) (numLayers : ℕ)
    (masks : ℕ → ℕ → ℕ → ℚ) (prevIdx : Option (ℕ → ℕ))
    (cellF : ℕ → (ℕ → ℕ → ℚ) → (ℕ → ℕ → ℚ) × (ℕ → ℕ → ℚ) →
      (ℕ → ℕ → ℚ) × (ℕ → ℕ → ℚ))
    (transF : ℕ → (ℕ → ℕ → ℕ → ℚ) → ℕ → ℕ → ℕ → ℚ)
    (h0 c0 : ℕ → ℕ → ℕ → ℚ) (inputs : ℕ → ℕ → ℕ → ℚ) : ℕ → ℕ → ℕ → ℚ :=
  rnnLayerIn training dropout numLayers masks prevIdx cellF transF h0 c0
    inputs numLayers

/-- C8: inside one driver call in training mode with a non-zero rate, the
tensor fed from layer `l` into layer `l + 1` is layer `l`'s stacked output
multiplied by a time-step-independent mask (the same `masks l · ·` multiplier
at every time index `t`), and no dropout is applied after the final layer:
the driver's output equals layer `numLayers - 1`'s raw stacked output. -/
theorem locked_dropout_time_invariant_and_final_layer (training : Bool)
    (dropout : ℚ) (numLayers : ℕ) (masks : ℕ → ℕ → ℕ → ℚ)
    (cellF : ℕ → (ℕ → ℕ → ℚ) → (ℕ → ℕ → ℚ) × (ℕ → ℕ → ℚ) →
      (ℕ → ℕ → ℚ) × (ℕ → ℕ → ℚ))
    (transF : ℕ → (ℕ → ℕ → ℕ → ℚ) → ℕ → ℕ → ℕ → ℚ)
    (h0 c0 : ℕ → ℕ → ℕ → ℚ) (inputs : ℕ → ℕ → ℕ → ℚ) (l : ℕ)
    (htrain : training = true) (hdrop : dropout ≠ 0) (hl : l + 1 < numLayers) :
    (∀ b t f, rnnLayerIn training dropout numLayers masks none cellF transF
        h0 c0 inputs (l + 1) b t f =
      masks l b f * rnnLayerRaw training dropout numLayers masks none cellF
        transF h0 c0 inputs l b t f) ∧
    (∀ b t f, rnnDriverOutputs training dropout numLayers masks none cellF
        transF h0 c0 inputs b t f =
      rnnLayerRaw training dropout numLayers masks none cellF transF h0 c0
        inputs (numLayers - 1) b t f) := by
  constructor
  · intro b t f
    have hcond : ¬ (training = false ∨ dropout = 0 ∨ l = numLayers - 1) := by
      push_neg
      exact ⟨by simp [htrain], hdrop, by omega⟩
    simp only [rnnLayerIn, lockedDropoutForward, if_neg hcond]
    rfl
  · intro b t f
    cases numLayers with
    | zero => omega
    | succ k =>
      have hcond : (training = false ∨ dropout = 0 ∨ k = (k + 1) - 1) := by
        right; right; omega
      unfold rnnDriverOutputs
      simp only [rnnLayerIn, lockedDropoutForward, if_pos hcond]
      rfl

/-- C8 witness: two layers, rate 1/2, identity-style cell, applied at
`l = 0`, batch 0, time 1, feature 0. -/
theorem locked_dropout_time_invariant_and_final_layer_witness :
    true = true ∧ (1/2 : ℚ) ≠ 0 ∧ 0 + 1 < 2 ∧
    (rnnLayerIn true (1/2) 2 (fun _ _ _ => 3) none (fun _ _ s => s)
        (fun _ x => x) (fun _ _ _ => 0) (fun _ _ _ => 0) (fun _ _ _ => 5)
        (0 + 1) 0 1 0 =
      (fun _ _ _ => (3:ℚ)) 0 0 0 * rnnLayerRaw true (1/2) 2 (fun _ _ _ => 3)
        none (fun _ _ s => s) (fun _ x => x) (fun _ _ _ => 0) (fun _ _ _ => 0)
        (fun _ _ _ => 5) 0 0 1 0) ∧
    (rnnDriverOutputs true (1/2) 2 (fun _ _ _ => 3) none (fun _ _ s => s)
        (fun _ x => x) (fun _ _ _ => 0) (fun _ _ _ => 0) (fun _ _ _ => 5)
        0 1 0 =
      rnnLayerRaw true (1/2) 2 (fun _ _ _ => 3) none (fun _ _ s => s)
        (fun _ x => x) (fun _ _ _ => 0) (fun _ _ _ => 0) (fun _ _ _ => 5)
        (2 - 1) 0 1 0) :=
  ⟨rfl, by norm_num, by decide,
    (locked_dropout_time_invariant_and_final_layer true (1/2) 2
      (fun _ _ _ => 3) (fun _ _ s => s) (fun _ x => x) (fun _ _ _ => 0)
      (fun _ _ _ => 0) (fun _ _ _ => 5) 0 rfl (by norm_num) (by decide)).1 0 1 0,
    (locked_dropout_time_invariant_and_final_layer true (1/2) 2
      (fun _ _ _ => 3) (fun _ _ s => s) (fun _ x => x) (fun _ _ _ => 0)
      (fun _ _ _ => 0) (fun _ _ _ => 5) 0 rfl (by norm_num) (by decide)).2 0 1 0⟩

-- ## Multi-head attention blocks of the decoder
-- (`model/decoder/decoder_cell.py`, `AstormerLayer` lines 229-300,
--  `DecoupledAstormerLayer` lines 66-183)

/-- Hidden-state tensor: batch index, position index, feature index. -/
abbrev T3Q := ℕ → ℕ → ℕ → ℚ

/-- Per-pair relation-bias tensor: batch, query pos, key pos, head-dim index
(the head axis of the source tensors is an `expand`, identical per head). -/
abbrev T4Q := ℕ → ℕ → ℕ → ℕ → ℚ

/-- Boolean mask tensor: batch, query pos, key pos. -/
abbrev MaskT := ℕ → ℕ → ℕ → Bool

/-- A masked-softmax evaluator: mask for one query row, row length, scores,
key index, giving the attention weight. -/
abbrev SmaxT := Option (ℕ → Bool) → ℕ → (ℕ → ℚ) → ℕ → ℚ

/-- Decoder masking constant `-1e10` (`masked_fill_(~mask, -1e10)`). -/
def negBigDec : ℚ := -(10 ^ 10)

/-- Encoder masking constant `-1e20` (`masked_fill_(mask, -1e20)`). -/
def negBigEnc : ℚ := -(10 ^ 20)

/-- Score row after the source's `masked_fill`: where the keep-mask is false
the score is replaced by the large negative constant. -/
def maskedScore (mask : Option (ℕ → Bool)) (neg : ℚ) (e : ℕ → ℚ) (j : ℕ) : ℚ :=
  match mask with
  | none => e j
  | some m => if m j then e j else neg

/-- Source softmax semantics: `softmax` applied to the `masked_fill`-ed
scores (exact arithmetic: masked entries keep the weight `E neg / Z > 0`). -/
def smaxFill (E : ℚ → ℚ) (neg : ℚ) (mask : Option (ℕ → Bool)) (n : ℕ)
    (e : ℕ → ℚ) (j : ℕ) : ℚ :=
  softmaxRow E n (fun k => maskedScore mask neg e k) j

/-- Idealized masked softmax: a masked position receives weight exactly 0 and
the normalizer ranges over unmasked positions only. This is the IEEE-float
behaviour of the `-1e10` fill, where `exp(-1e10 - s)` underflows to zero. -/
def smaxIdeal (E : ℚ → ℚ) (mask : Option (ℕ → Bool)) (n : ℕ)
    (e : ℕ → ℚ) (j : ℕ) : ℚ :=
  match mask with
  | none => softmaxRow E n e j
  | some m =>
    if m j then E (e j) / sumF n (fun k => if m k then E (e k) else 0) else 0

/-- `nn.Linear` with bias on one feature row. -/
def affineRow (inDim : ℕ) (W : ℕ → ℕ → ℚ) (b : ℕ → ℚ) (x : ℕ → ℚ) (o : ℕ) : ℚ :=
  sumF inDim (fun j => W o j * x j) + b o

/-- `nn.Linear` without bias on one feature row. -/
def linRow (inDim : ℕ) (W : ℕ → ℕ → ℚ) (x : ℕ → ℚ) (o : ℕ) : ℚ :=
  sumF inDim (fun j => W o j * x j)

/-- `torch.relu`. -/
def reluQ (x : ℚ) : ℚ := max x 0

/-- `nn.LayerNorm(H)` (torch default `eps = 1e-5`, biased variance), with the
reciprocal square root abstracted as `rsq`. -/
def layerNorm (H : ℕ) (lnG lnB : ℕ → ℚ) (rsq : ℚ → ℚ) (x : ℕ → ℚ) (h : ℕ) : ℚ :=
  lnG h * ((x h - sumF H x / (H : ℚ)) *
    rsq (sumF H (fun k => (x k - sumF H x / (H : ℚ)) ^ 2) / (H : ℚ) + 1 / 100000)) +
  lnB h

/-- Parameters of `model/model_utils.py, FFN` (lines 240-254):
`Linear(H, 4H) → ReLU → Linear(4H, H)`, then `layernorm(inputs + ff(inputs))`. -/
structure FFNParams where
  W1 : ℕ → ℕ → ℚ
  b1 : ℕ → ℚ
  W2 : ℕ → ℕ → ℚ
  b2 : ℕ → ℚ
  lnG : ℕ → ℚ
  lnB : ℕ → ℚ

/-- `FFN.forward` on one feature row. -/
def ffnForward (H : ℕ) (P : FFNParams) (rsq : ℚ → ℚ) (x : ℕ → ℚ) (h : ℕ) : ℚ :=
  layerNorm H P.lnG P.lnB rsq
    (fun f => x f + affineRow (4 * H) P.W2 P.b2
      (fun u => reluQ (affineRow H P.W1 P.b1 x u)) f) h

/-- Parameters and per-call dropout multipliers of one attention sub-block
(`*_q_affine` has a bias, `*_k_affine`/`*_v_affine` do not, `*_o_affine` has
a bias, then a `LayerNorm`; `dq`/`dk`/`dv` are the elementwise multipliers of
the three independent `self.dropout_layer(...)` calls — identity tensors in
eval mode, Bernoulli-mask-over-keep-probability tensors in training). -/
structure AttnParams where
  Wq : ℕ → ℕ → ℚ
  bq : ℕ → ℚ
  Wk : ℕ → ℕ → ℚ
  Wv : ℕ → ℕ → ℚ
  Wo : ℕ → ℕ → ℚ
  bo : ℕ → ℚ
  lnG : ℕ → ℚ
  lnB : ℕ → ℚ
  dq : T3Q
  dk : T3Q
  dv : T3Q

/-- Query head slice: `P.Wq(dropout(x)).reshape(bs, l, nh, hd)`, head `h`,
dim `d` (the `transpose(1, 2)` of the source only permutes indices and is
absorbed by indexing). -/
def projQ (H hd : ℕ) (P : AttnParams) (x : T3Q) (b t h d : ℕ) : ℚ :=
  affineRow H P.Wq P.bq (fun f => P.dq b t f * x b t f) (h * hd + d)

/-- Key head slice (no bias). -/
def projK (H hd : ℕ) (P : AttnParams) (x : T3Q) (b s h d : ℕ) : ℚ :=
  linRow H P.Wk (fun f => P.dk b s f * x b s f) (h * hd + d)

/-- Value head slice (no bias). -/
def projV (H hd : ℕ) (P : AttnParams) (x : T3Q) (b s h d : ℕ) : ℚ :=
  linRow H P.Wv (fun f => P.dv b s f * x b s f) (h * hd + d)

/-- Relation-biased attention scores, one query row:
`e = matmul(Q.unsqueeze(3), (K + rel_k).transpose(-1,-2)) / scale_factor`
(`calculate_self_attention_with_relation` lines 261-267 and the analogous
`calculate_tgt_attention_with_relation` lines 135-141). -/
def scoreRel (H hd : ℕ) (scale : ℚ) (P : AttnParams) (q kv : T3Q)
    (relK : T4Q) (b t h : ℕ) (s : ℕ) : ℚ :=
  sumF hd (fun d => projQ H hd P q b t h d * (projK H hd P kv b s h d + relK b t s d)) /
    scale

/-- Plain attention scores, one query row:
`e = einsum('bthd,bshd->btsh', Q, K) / scale_factor`. -/
def scorePlain (H hd : ℕ) (scale : ℚ) (P : AttnParams) (q kv : T3Q)
    (b t h : ℕ) (s : ℕ) : ℚ :=
  sumF hd (fun d => projQ H hd P q b t h d * projK H hd P kv b s h d) / scale

/-- One relation-biased attention sub-block, hidden-state output: softmax of
the masked scores, weighted sum of the relation-biased values, head concat,
output affine, residual and layer norm (`calculate_self_attention_with_relation`
/ `calculate_tgt_attention_with_relation`). `S` is the key/value length. -/
def attnOutRel (H nh hd S : ℕ) (scale : ℚ) (P : AttnParams) (smaxF : SmaxT)
    (rsq : ℚ → ℚ) (q kv : T3Q) (relK relV : T4Q) (mask : Option MaskT) : T3Q :=
  fun b t f =>
    layerNorm H P.lnG P.lnB rsq
      (fun f2 => q b t f2 + affineRow H P.Wo P.bo
        (fun g => sumF S (fun s =>
          smaxF (Option.map (fun m => fun j => m b t j) mask) S
              (scoreRel H hd scale P q kv relK b t (g / hd)) s *
            (projV H hd P kv b s (g / hd) (g % hd) + relV b t s (g % hd)))) f2) f

/-- One plain attention sub-block, hidden-state output
(`calculate_self_attention` / `calculate_tgt_attention` /
`calculate_cross_attention`). -/
def attnOutPlain (H nh hd S : ℕ) (scale : ℚ) (P : AttnParams) (smaxF : SmaxT)
    (rsq : ℚ → ℚ) (q kv : T3Q) (mask : Option MaskT) : T3Q :=
  fun b t f =>
    layerNorm H P.lnG P.lnB rsq
      (fun f2 => q b t f2 + affineRow H P.Wo P.bo
        (fun g => sumF S (fun s =>
          smaxF (Option.map (fun m => fun j => m b t j) mask) S
              (scorePlain H hd scale P q kv b t (g / hd)) s *
            projV H hd P kv b s (g / hd) (g % hd))) f2) f

/-- Attention weights of the relation path, in the source layout
`bs × num_heads × l × l` (`a = torch.softmax(e, dim=-1)`, line 269). -/
def attnWeightsRel (H hd S : ℕ) (scale : ℚ) (P : AttnParams) (smaxF : SmaxT)
    (q kv : T3Q) (relK : T4Q) (mask : Option MaskT) : T4Q :=
  fun b h i j =>
    smaxF (Option.map (fun m => fun j2 => m b i j2) mask) S
      (scoreRel H hd scale P q kv relK b i h) j

/-- Attention weights of the no-relation path, in the source layout
`bs × l × l × num_heads` (`e : btsh`, `a = torch.softmax(e, dim=2)`,
lines 280-282). -/
def attnWeightsPlain (H hd S : ℕ) (scale : ℚ) (P : AttnParams) (smaxF : SmaxT)
    (q kv : T3Q) (mask : Option MaskT) : T4Q :=
  fun b t s h =>
    smaxF (Option.map (fun m => fun j2 => m b t j2) mask) S
      (scorePlain H hd scale P q kv b t h) s

-- ## AstormerLayer / Astormer (decoder_cell.py lines 186-300)

/-- Parameters of one `AstormerLayer` (lines 231-246): a self-attention
block, a cross-attention block, a feed-forward block, and the shared
`scale_factor = sqrt(hidden_size // num_heads)` (kept as a parameter since
it is irrational on ℚ). -/
structure AstormerLayerParams where
  selfP : AttnParams
  crossP : AttnParams
  ffnP : FFNParams
  scale : ℚ

/-- `AstormerLayer.forward` (lines 249-300), hidden-state output: the
relation branch is taken iff relation embeddings are supplied (`rel_k is not
None`), with the self mask always present; then cross-attention to `kv`
masked by the broadcast encoder mask; then the feed-forward block. `T` is the
query length, `S` the encoder length. -/
def astormerLayerOut (T S H nh hd : ℕ) (L : AstormerLayerParams)
    (smaxF : SmaxT) (rsq : ℚ → ℚ) (q kv : T3Q) (relKV : Option (T4Q × T4Q))
    (relMask : MaskT) (encMask : Option (ℕ → ℕ → Bool)) : T3Q :=
  let o1 := match relKV with
    | some rkv =>
      attnOutRel H nh hd T L.scale L.selfP smaxF rsq q q rkv.1 rkv.2 (some relMask)
    | none => attnOutPlain H nh hd T L.scale L.selfP smaxF rsq q q (some relMask)
  let o2 := attnOutPlain H nh hd S L.scale L.crossP smaxF rsq o1 kv
    (Option.map (fun m => fun b _ s => m b s) encMask)
  fun b t f => ffnForward H L.ffnP rsq (fun g => o2 b t g) f

/-- Self-attention weights of one `AstormerLayer.forward` call, in the layout
of whichever branch was taken. -/
def astormerLayerWeights (T H hd : ℕ) (L : AstormerLayerParams)
    (smaxF : SmaxT) (q : T3Q) (relKV : Option (T4Q × T4Q)) (relMask : MaskT) :
    T4Q :=
  match relKV with
  | some rkv => attnWeightsRel H hd T L.scale L.selfP smaxF q q rkv.1 (some relMask)
  | none => attnWeightsPlain H hd T L.scale L.selfP smaxF q q (some relMask)

/-- `Astormer.forward` (lines 211-216): the self mask is the causal
lower-triangular mask, intersected with relation validity
(`rel_ids != pad_idx`) when relation ids are supplied. -/
def astormerRelMask (padIdx : ℕ) (relIds : Option (ℕ → ℕ → ℕ → ℕ)) : MaskT :=
  fun b i j =>
    match relIds with
    | none => decide (j ≤ i)
    | some r => decide (r b i j ≠ padIdx) && decide (j ≤ i)

/-- Relation key/value bias tensors from the embedding tables
(`self.relation_embed_k(rel_ids)` etc., head-broadcast). -/
def relLookup (emb : ℕ → ℕ → ℚ) (r : ℕ → ℕ → ℕ → ℕ) : T4Q :=
  fun b i j d => emb (r b i j) d

/-- `Astormer.forward` lines 219-220, the sequential layer loop:
`astormerIter ... n` is the running hidden state after `n` layers. -/
def astormerIter (T S H nh hd : ℕ) (layers : ℕ → AstormerLayerParams)
    (smaxF : SmaxT) (rsq : ℚ → ℚ) (kv : T3Q) (relKV : Option (T4Q × T4Q))
    (relMask : MaskT) (encMask : Option (ℕ → ℕ → Bool)) (q : T3Q) :
    ℕ → T3Q
  | 0 => q
  | n + 1 => astormerLayerOut T S H nh hd (layers n) smaxF rsq
      (astormerIter T S H nh hd layers smaxF rsq kv relKV relMask encMask q n)
      kv relKV relMask encMask

/-- `Astormer.forward` (lines 201-226), hidden-state output, with the source
masked-softmax semantics (`smaxFill E negBigDec`). -/
def astormerForwardOut (E : ℚ → ℚ) (rsq : ℚ → ℚ) (numLayers T S H nh hd : ℕ)
    (layers : ℕ → AstormerLayerParams) (embK embV : ℕ → ℕ → ℚ) (padIdx : ℕ)
    (q kv : T3Q) (relIds : Option (ℕ → ℕ → ℕ → ℕ))
    (encMask : Option (ℕ → ℕ → Bool)) : T3Q :=
  astormerIter T S H nh hd layers (smaxFill E negBigDec) rsq kv
    (Option.map (fun r => (relLookup embK r, relLookup embV r)) relIds)
    (astormerRelMask padIdx relIds) encMask q numLayers

/-- `Astormer.forward` with `return_attention_weights=True`: the stacked
per-layer self-attention weights, `torch.stack(attention_weights, dim=1)`
(line 225) — index order (batch, layer, then the per-layer weight indices). -/
def astormerForwardWeights (E : ℚ → ℚ) (rsq : ℚ → ℚ) (T S H nh hd : ℕ)
    (layers : ℕ → AstormerLayerParams) (embK embV : ℕ → ℕ → ℚ) (padIdx : ℕ)
    (q kv : T3Q) (relIds : Option (ℕ → ℕ → ℕ → ℕ))
    (encMask : Option (ℕ → ℕ → Bool)) : ℕ → ℕ → ℕ → ℕ → ℕ → ℚ :=
  fun b l x y z =>
    astormerLayerWeights T H hd (layers l) (smaxFill E negBigDec)
      (astormerIter T S H nh hd layers (smaxFill E negBigDec) rsq kv
        (Option.map (fun r => (relLookup embK r, relLookup embV r)) relIds)
        (astormerRelMask padIdx relIds) encMask q l)
      (Option.map (fun r => (relLookup embK r, relLookup embV r)) relIds)
      (astormerRelMask padIdx relIds) b x y z

/-- The layer stack run in the no-relation code path but with an explicitly
supplied self mask (comparison object for the padding-relation claim). -/
def astormerStackPlainMask (E : ℚ → ℚ) (rsq : ℚ → ℚ)
    (numLayers T S H nh hd : ℕ) (layers : ℕ → AstormerLayerParams)
    (q kv : T3Q) (selfMask : MaskT) (encMask : Option (ℕ → ℕ → Bool)) : T3Q :=
  astormerIter T S H nh hd layers (smaxFill E negBigDec) rsq kv none selfMask
    encMask q numLayers

/-- `Astormer.forward` with the idealized masked softmax (masked positions
get exactly zero attention weight — the float behaviour of the `-1e10` fill). -/
def astormerForwardIdeal (E : ℚ → ℚ) (rsq : ℚ → ℚ) (numLayers T S H nh hd : ℕ)
    (layers : ℕ → AstormerLayerParams) (embK embV : ℕ → ℕ → ℚ) (padIdx : ℕ)
    (q kv : T3Q) (relIds : Option (ℕ → ℕ → ℕ → ℕ))
    (encMask : Option (ℕ → ℕ → Bool)) : T3Q :=
  astormerIter T S H nh hd layers (smaxIdeal E) rsq kv
    (Option.map (fun r => (relLookup embK r, relLookup embV r)) relIds)
    (astormerRelMask padIdx relIds) encMask q numLayers

-- ## DecoupledAstormerLayer / DecoupledAstormer (decoder_cell.py lines 9-183)

/-- Parameters of one `DecoupledAstormerLayer` (lines 68-88): self, tgt
(previous-action) and cross attention blocks, feed-forward, shared scale. -/
structure DecoupledLayerParams where
  selfP : AttnParams
  tgtP : AttnParams
  crossP : AttnParams
  ffnP : FFNParams
  scale : ℚ

/-- `DecoupledAstormerLayer.forward` (lines 171-183), hidden-state output.
Faithful to the source: in the with-relation tgt branch the query passed to
`calculate_tgt_attention_with_relation` is `q` (the layer input), while in
the no-relation branch it is `o` (the self-attention output). -/
def decoupledLayerOut (T S H nh hd : ℕ) (L : DecoupledLayerParams)
    (smaxF : SmaxT) (rsq : ℚ → ℚ) (q prev kv : T3Q)
    (selfRels : Option (T4Q × T4Q)) (selfMask : Option MaskT)
    (tgtRels : Option (T4Q × T4Q)) (tgtMask : Option MaskT)
    (encMask : Option (ℕ → ℕ → Bool)) : T3Q :=
  let o1 := match selfRels with
    | some rkv => attnOutRel H nh hd T L.scale L.selfP smaxF rsq q q rkv.1 rkv.2 selfMask
    | none => attnOutPlain H nh hd T L.scale L.selfP smaxF rsq q q selfMask
  let o2 := match tgtRels with
    | some rkv => attnOutRel H nh hd T L.scale L.tgtP smaxF rsq q prev rkv.1 rkv.2 tgtMask
    | none => attnOutPlain H nh hd T L.scale L.tgtP smaxF rsq o1 prev tgtMask
  let o3 := attnOutPlain H nh hd S L.scale L.crossP smaxF rsq o2 kv
    (Option.map (fun m => fun b _ s => m b s) encMask)
  fun b t f => ffnForward H L.ffnP rsq (fun g => o3 b t g) f

/-- Modelled from the spec (§4.4, §2 and claim C2): the intended sequential
layer in which sub-block (b) consumes sub-block (a)'s output in BOTH code
paths — identical to `decoupledLayerOut` except that the with-relation tgt
branch queries with `o1` instead of `q`. -/
def decoupledLayerOutChained (T S H nh hd : ℕ) (L : DecoupledLayerParams)
    (smaxF : SmaxT) (rsq : ℚ → ℚ) (q prev kv : T3Q)
    (selfRels : Option (T4Q × T4Q)) (selfMask : Option MaskT)
    (tgtRels : Option (T4Q × T4Q)) (tgtMask : Option MaskT)
    (encMask : Option (ℕ → ℕ → Bool)) : T3Q :=
  let o1 := match selfRels with
    | some rkv => attnOutRel H nh hd T L.scale L.selfP smaxF rsq q q rkv.1 rkv.2 selfMask
    | none => attnOutPlain H nh hd T L.scale L.selfP smaxF rsq q q selfMask
  let o2 := match tgtRels with
    | some rkv => attnOutRel H nh hd T L.scale L.tgtP smaxF rsq o1 prev rkv.1 rkv.2 tgtMask
    | none => attnOutPlain H nh hd T L.scale L.tgtP smaxF rsq o1 prev tgtMask
  let o3 := attnOutPlain H nh hd S L.scale L.crossP smaxF rsq o2 kv
    (Option.map (fun m => fun b _ s => m b s) encMask)
  fun b t f => ffnForward H L.ffnP rsq (fun g => o3 b t g) f

/-- `DecoupledAstormer.forward` (lines 41-57): masks are the causal mask
intersected with relation validity where the respective relation ids are
supplied; the layer loop threads the hidden state; `self_embed_k/v` are
aliased to `tgt_embed_k/v` (line 23), so one embedding pair serves both. -/
def decoupledIter (T S H nh hd : ℕ) (layers : ℕ → DecoupledLayerParams)
    (smaxF : SmaxT) (rsq : ℚ → ℚ) (prev kv : T3Q)
    (selfRels : Option (T4Q × T4Q)) (selfMask : Option MaskT)
    (tgtRels : Option (T4Q × T4Q)) (tgtMask : Option MaskT)
    (encMask : Option (ℕ → ℕ → Bool)) (q : T3Q) : ℕ → T3Q
  | 0 => q
  | n + 1 => decoupledLayerOut T S H nh hd (layers n) smaxF rsq
      (decoupledIter T S H nh hd layers smaxF rsq prev kv selfRels selfMask
        tgtRels tgtMask encMask q n)
      prev kv selfRels selfMask tgtRels tgtMask encMask

/-- `DecoupledAstormer.forward`, hidden-state output with the source
masked-softmax semantics. -/
def decoupledForwardOut (E : ℚ → ℚ) (rsq : ℚ → ℚ) (numLayers T S H nh hd : ℕ)
    (layers : ℕ → DecoupledLayerParams) (embK embV : ℕ → ℕ → ℚ) (padIdx : ℕ)
    (q prev kv : T3Q) (relIds crossRelIds : Option (ℕ → ℕ → ℕ → ℕ))
    (encMask : Option (ℕ → ℕ → Bool)) : T3Q :=
  decoupledIter T S H nh hd layers (smaxFill E negBigDec) rsq prev kv
    (Option.map (fun r => (relLookup embK r, relLookup embV r)) relIds)
    (some (astormerRelMask padIdx relIds))
    (Option.map (fun r => (relLookup embK r, relLookup embV r)) crossRelIds)
    (some (astormerRelMask padIdx crossRelIds)) encMask q numLayers

/-- Comparison object for the padding-relation claim on the decoupled stack:
every layer applies the no-relation tgt attention to the layer input `q`
(matching the source's with-relation dataflow) with an all-false mask, then
cross-attention and feed-forward; the self sub-block result is discarded
exactly as in the source's with-relation path. -/
def decoupledVariantIter (T S H nh hd : ℕ) (layers : ℕ → DecoupledLayerParams)
    (E : ℚ → ℚ) (rsq : ℚ → ℚ) (prev kv : T3Q)
    (encMask : Option (ℕ → ℕ → Bool)) (q : T3Q) : ℕ → T3Q
  | 0 => q
  | n + 1 =>
    let qn := decoupledVariantIter T S H nh hd layers E rsq prev kv encMask q n
    let o2 := attnOutPlain H nh hd T (layers n).scale (layers n).tgtP
      (smaxFill E negBigDec) rsq qn prev (some (fun _ _ _ => false))
    let o3 := attnOutPlain H nh hd S (layers n).scale (layers n).crossP
      (smaxFill E negBigDec) rsq o2 kv
      (Option.map (fun m => fun b _ s => m b s) encMask)
    fun b t f => ffnForward H (layers n).ffnP rsq (fun g => o3 b t g) f

-- ## Encoder graph-attention layers (`model/encoder/hidden_layer.py`)

/-- Parameters of one encoder layer (`RGATLayer.__init__` lines 44-55 /
`IRNetLayer.__init__` lines 103-114): query (with bias), key, value,
`concat_affine` (with bias, playing the `Wo`/`bo` role), layer norm,
feed-forward, and the scale factor. -/
structure EncLayerParams where
  attnP : AttnParams
  ffnP : FFNParams
  scale : ℚ

/-- `RGATLayer.forward` (lines 58-80): relation-biased self-attention over
the node set. The source fills where the mask is TRUE
(`masked_fill_(mask, -1e20)`, polarity inverted relative to the decoder), so
the keep-mask handed to the shared attention block is the negation. -/
def rgatLayerForward (T H nh hd : ℕ) (P : EncLayerParams) (E : ℚ → ℚ)
    (rsq : ℚ → ℚ) (inputs : T3Q) (mask : MaskT) (relK relV : T4Q) : T3Q :=
  fun b t f => ffnForward H P.ffnP rsq
    (fun g => attnOutRel H nh hd T P.scale P.attnP (smaxFill E negBigEnc) rsq
      inputs inputs relK relV (some (fun b2 i j => ! mask b2 i j)) b t g) f

/-- `IRNetLayer.forward` (lines 117-137): plain self-attention with the same
inverted mask polarity and `-1e20` fill. -/
def irnetLayerForward (T H nh hd : ℕ) (P : EncLayerParams) (E : ℚ → ℚ)
    (rsq : ℚ → ℚ) (inputs : T3Q) (mask : MaskT) : T3Q :=
  fun b t f => ffnForward H P.ffnP rsq
    (fun g => attnOutPlain H nh hd T P.scale P.attnP (smaxFill E negBigEnc) rsq
      inputs inputs (some (fun b2 i j => ! mask b2 i j)) b t g) f

/-- `RGATHiddenLayer.forward` (lines 24-37): relation embeddings are computed
once (`relLookup` below in `rgatHiddenForward`) and each loop iteration feeds
the previous iteration's `outputs` into the next layer. -/
def rgatHiddenIter (T H nh hd : ℕ) (layers : ℕ → EncLayerParams) (E : ℚ → ℚ)
    (rsq : ℚ → ℚ) (mask : MaskT) (relK relV : T4Q) (inputs : T3Q) : ℕ → T3Q
  | 0 => inputs
  | n + 1 => rgatLayerForward T H nh hd (layers n) E rsq
      (rgatHiddenIter T H nh hd layers E rsq mask relK relV inputs n) mask relK relV

/-- `RGATHiddenLayer.forward`, entry point. -/
def rgatHiddenForward (numLayers T H nh hd : ℕ) (layers : ℕ → EncLayerParams)
    (E : ℚ → ℚ) (rsq : ℚ → ℚ) (embK embV : ℕ → ℕ → ℚ)
    (relIds : ℕ → ℕ → ℕ → ℕ) (mask : MaskT) (inputs : T3Q) : T3Q :=
  rgatHiddenIter T H nh hd layers E rsq mask (relLookup embK relIds)
    (relLookup embV relIds) inputs numLayers

/-- `IRNetHiddenLayer.forward` (lines 93-97), faithful to the source: each
loop iteration computes `outputs = self.gnn_layers[i](inputs, ...)` — the
argument is `inputs`, the ORIGINAL input, not the previous iteration's
`outputs`, so every iteration's result but the last is discarded. -/
def irnetHiddenForward (T H nh hd : ℕ) (layers : ℕ → EncLayerParams)
    (E : ℚ → ℚ) (rsq : ℚ → ℚ) (mask : MaskT) (inputs : T3Q) : ℕ → T3Q
  | 0 => inputs
  | n + 1 => irnetLayerForward T H nh hd (layers n) E rsq inputs mask

/-- Modelled from the spec (§4.2 "Stacked N times ..." and claim C3): the
N-fold sequential composition of a family of layer applications, where layer
`i + 1` consumes layer `i`'s output. -/
def chainNFold (layerApp : ℕ → T3Q → T3Q) (inputs : T3Q) : ℕ → T3Q
  | 0 => inputs
  | n + 1 => layerApp n (chainNFold layerApp inputs n)

-- ## Diagnostics shapes (`Astormer.forward`, claim C5)

/-- Shape of the per-layer attention weights in the with-relation path:
`Q.unsqueeze(3) : bs×nh×l×1×hd`, `K_rel.transpose(-1,-2) : bs×nh×l×hd×l`,
`matmul → bs×nh×l×1×l`, `.squeeze(-2) → bs×nh×l×l`; `masked_fill` and
`softmax(dim=-1)` preserve the shape (lines 261-269). -/
def attnWeightShapeRel (bs nh l : ℕ) : List ℕ := [bs, nh, l, l]

/-- Shape of the per-layer attention weights in the no-relation path:
`e = einsum('bthd,bshd->btsh', Q, K) : bs×l×l×nh`; `masked_fill` and
`softmax(dim=2)` preserve the shape (lines 280-282). -/
def attnWeightShapePlain (bs nh l : ℕ) : List ℕ := [bs, l, l, nh]

/-- `torch.stack(attention_weights, dim=1)` (line 225) over `numLayers`
tensors of a common shape: inserts the layer axis at position 1. -/
def stackDim1Shape (numLayers : ℕ) (s : List ℕ) : List ℕ :=
  match s with
  | b :: rest => b :: numLayers :: rest
  | [] => [numLayers]

/-- Shape of the second return value of `Astormer.forward` with
`return_attention_weights=True`, per code path. -/
def astormerWeightsShape (withRel : Bool) (bs numLayers nh l : ℕ) : List ℕ :=
  stackDim1Shape numLayers
    (if withRel then attnWeightShapeRel bs nh l else attnWeightShapePlain bs nh l)

-- ## Concrete parameter instances used in concrete evaluations

/-- All-zero weight matrix. -/
def zeroW : ℕ → ℕ → ℚ := fun _ _ => 0

/-- All-zero bias / vector. -/
def zeroV : ℕ → ℚ := fun _ => 0

/-- All-one vector (layer-norm gains). -/
def oneV : ℕ → ℚ := fun _ => 1

/-- All-one dropout-multiplier tensor (eval mode). -/
def oneT3 : T3Q := fun _ _ _ => 1

/-- All-zero hidden-state tensor. -/
def zeroT3 : T3Q := fun _ _ _ => 0

/-- Identity weight matrix. -/
def idW : ℕ → ℕ → ℚ := fun i j => if i = j then 1 else 0

/-- All-ones weight matrix. -/
def onesW : ℕ → ℕ → ℚ := fun _ _ => 1

/-- Constant-one abstract exponential (positive everywhere). -/
def constE1 : ℚ → ℚ := fun _ => 1

/-- Sign-sensitive abstract exponential (positive and monotone across 0). -/
def stepE : ℚ → ℚ := fun x => if x < 0 then 1 else 2

/-- Constant-one reciprocal square root. -/
def rsqOne : ℚ → ℚ := fun _ => 1

/-- Lower-triangular causal keep-mask. -/
def trilMask : MaskT := fun _ i j => decide (j ≤ i)

/-- All-false mask. -/
def falseMask : MaskT := fun _ _ _ => false

/-- Zero relation-bias tensor. -/
def zeroT4 : T4Q := fun _ _ _ _ => 0

/-- Zero embedding table (the padding row of `nn.Embedding(padding_idx=...)`
is zero; this table is zero everywhere). -/
def zeroEmb : ℕ → ℕ → ℚ := fun _ _ => 0

/-- Attention block: `Wv = Wo = id`, everything else zero, unit dropout. -/
def attnPId : AttnParams :=
  { Wq := zeroW, bq := zeroV, Wk := zeroW, Wv := idW, Wo := idW, bo := zeroV,
    lnG := oneV, lnB := zeroV, dq := oneT3, dk := oneT3, dv := oneT3 }

/-- Attention block: `Wo = id`, value map zero, unit dropout. -/
def attnPZeroV : AttnParams :=
  { Wq := zeroW, bq := zeroV, Wk := zeroW, Wv := zeroW, Wo := idW, bo := zeroV,
    lnG := oneV, lnB := zeroV, dq := oneT3, dk := oneT3, dv := oneT3 }

/-- Attention block with every weight zero, unit dropout. -/
def attnPAllZero : AttnParams :=
  { Wq := zeroW, bq := zeroV, Wk := zeroW, Wv := zeroW, Wo := zeroW, bo := zeroV,
    lnG := oneV, lnB := zeroV, dq := oneT3, dk := oneT3, dv := oneT3 }

/-- Attention block with all-one projections (used at hidden size 1). -/
def attnPOnes : AttnParams :=
  { Wq := onesW, bq := zeroV, Wk := onesW, Wv := onesW, Wo := onesW, bo := zeroV,
    lnG := oneV, lnB := zeroV, dq := oneT3, dk := oneT3, dv := oneT3 }

/-- Feed-forward block with all weights and biases zero. -/
def ffnPZero : FFNParams :=
  { W1 := zeroW, b1 := zeroV, W2 := zeroW, b2 := zeroV, lnG := oneV, lnB := zeroV }

-- ## C5: diagnostics weight-tensor shape

/-- C5 counterexample: at `bs = 1`, one layer, 2 heads, length 3, the
no-relation path's stacked weight tensor has shape `1×1×3×3×2`, not the
claimed `batch × layers × heads × length × length = 1×1×2×3×3`. -/
theorem astormer_weights_shape_cex :
    astormerWeightsShape false 1 1 2 3 ≠ [1, 1, 2, 3, 3] := by
  decide

/-- C5 (amended): the stacked diagnostics tensor has shape
`batch × layers × heads × length × length` in the with-relation path, but
`batch × layers × length × length × heads` in the no-relation path (the
head axis is last there, from the `btsh` einsum layout). -/
theorem astormer_weights_shape (bs nL nh l : ℕ) :
    astormerWeightsShape true bs nL nh l = [bs, nL, nh, l, l] ∧
    astormerWeightsShape false bs nL nh l = [bs, nL, l, l, nh] := by
  constructor <;> rfl

-- ## C2: sub-block sequencing in DecoupledAstormerLayer.forward

/-- The decoupled layer parameters used in the concrete C2/C1 evaluations. -/
def decoupledLCex : DecoupledLayerParams :=
  { selfP := attnPId, tgtP := attnPZeroV, crossP := attnPAllZero,
    ffnP := ffnPZero, scale := 1 }

/-- Concrete query for the C2 evaluation: position 0 is `(2, 0)`. -/
def qC2 : T3Q := fun _ _ f => if f = 0 then 2 else 0

/-- C2: in the with-relation tgt path of `DecoupledAstormerLayer.forward`
the self-attention sub-block's output is discarded — the layer output is
invariant under replacing the whole self sub-block's parameters — and on a
concrete input the layer output differs from the spec's sequential dataflow
(`decoupledLayerOutChained`, where sub-block (b) queries with sub-block (a)'s
output): the code gives `1` at index (0,0,0) where chaining gives `2`. -/
theorem decoupled_tgt_ignores_self_output :
    (∀ (T S H nh hd : ℕ) (scale : ℚ) (selfP selfP2 tgtP crossP : AttnParams)
      (ffnP : FFNParams) (smaxF : SmaxT) (rsq : ℚ → ℚ) (q prev kv : T3Q)
      (rkv : T4Q × T4Q) (selfRels : Option (T4Q × T4Q))
      (selfMask tgtMask : Option MaskT) (encMask : Option (ℕ → ℕ → Bool)),
      decoupledLayerOut T S H nh hd
          ⟨selfP, tgtP, crossP, ffnP, scale⟩ smaxF rsq q prev kv
          selfRels selfMask (some rkv) tgtMask encMask =
        decoupledLayerOut T S H nh hd
          ⟨selfP2, tgtP, crossP, ffnP, scale⟩ smaxF rsq q prev kv
          selfRels selfMask (some rkv) tgtMask encMask) ∧
    decoupledLayerOut 1 1 2 2 1 decoupledLCex (smaxFill constE1 negBigDec)
        rsqOne qC2 zeroT3 zeroT3 none (some trilMask) (some (zeroT4, zeroT4))
        (some trilMask) none 0 0 0 ≠
      decoupledLayerOutChained 1 1 2 2 1 decoupledLCex
        (smaxFill constE1 negBigDec) rsqOne qC2 zeroT3 zeroT3 none
        (some trilMask) (some (zeroT4, zeroT4)) (some trilMask) none 0 0 0 := by
  constructor
  · intro T S H nh hd scale selfP selfP2 tgtP crossP ffnP smaxF rsq q prev kv
      rkv selfRels selfMask tgtMask encMask
    rfl
  · norm_num [decoupledLayerOut, decoupledLayerOutChained, decoupledLCex,
      attnPId, attnPZeroV, attnPAllZero, ffnPZero, attnOutRel, attnOutPlain,
      ffnForward, layerNorm, affineRow, linRow, projQ, projK, projV,
      scoreRel, scorePlain, smaxFill, smaxIdeal, maskedScore, softmaxRow,
      sumF, reluQ, negBigDec, qC2, zeroT3, zeroT4, trilMask, constE1, rsqOne,
      oneV, zeroV, zeroW, idW, oneT3]

-- ## C3: stacked encoder layer composition

/-- Encoder layer used in the concrete C3 evaluation: value and output maps
zero, but `concat_affine` bias `(1, 0)`, so the layer shifts then
mean-centres its input. -/
def encBiasV : ℕ → ℚ := fun f => if f = 0 then 1 else 0

/-- Attention block for the C3 evaluation. -/
def attnPC3 : AttnParams :=
  { Wq := zeroW, bq := zeroV, Wk := zeroW, Wv := zeroW, Wo := zeroW,
    bo := encBiasV, lnG := oneV, lnB := zeroV,
    dq := oneT3, dk := oneT3, dv := oneT3 }

/-- Encoder layer parameters for the C3 evaluation. -/
def encLC3 : EncLayerParams := { attnP := attnPC3, ffnP := ffnPZero, scale := 1 }

/-- C3: the RGAT stack is the N-fold sequential composition of its layers
(layer `i+1` consumes layer `i`'s output), but the IRNet stack is not: on a
concrete two-layer instance, `IRNetHiddenLayer.forward` — whose loop applies
every layer to the ORIGINAL `inputs` — returns `1/2` at index (0,0,0) where
the sequential composition returns `1`. -/
theorem rgat_chains_but_irnet_does_not :
    (∀ (numLayers T H nh hd : ℕ) (layers : ℕ → EncLayerParams) (E : ℚ → ℚ)
      (rsq : ℚ → ℚ) (embK embV : ℕ → ℕ → ℚ) (relIds : ℕ → ℕ → ℕ → ℕ)
      (mask : MaskT) (inputs : T3Q),
      rgatHiddenForward numLayers T H nh hd layers E rsq embK embV relIds
          mask inputs =
        chainNFold
          (fun n x => rgatLayerForward T H nh hd (layers n) E rsq x mask
            (relLookup embK relIds) (relLookup embV relIds))
          inputs numLayers) ∧
    irnetHiddenForward 1 2 2 1 (fun _ => encLC3) constE1 rsqOne falseMask
        zeroT3 2 0 0 0 ≠
      chainNFold
        (fun n x => irnetLayerForward 1 2 2 1 ((fun _ => encLC3) n) constE1
          rsqOne x falseMask)
        zeroT3 2 0 0 0 := by
  constructor
  · intro numLayers T H nh hd layers E rsq embK embV relIds mask inputs
    unfold rgatHiddenForward
    induction numLayers with
    | zero => rfl
    | succ n ih => simp only [rgatHiddenIter, chainNFold, ih]
  · norm_num [irnetHiddenForward, irnetLayerForward, chainNFold, encLC3,
      attnPC3, ffnPZero, attnOutPlain, ffnForward, layerNorm, affineRow,
      linRow, projQ, projK, projV, scorePlain, smaxFill, maskedScore,
      softmaxRow, sumF, reluQ, negBigEnc, zeroT3, falseMask, constE1, rsqOne,
      oneV, zeroV, zeroW, encBiasV, oneT3]

-- ## C1: padding relation ids vs omitted relation ids

theorem scoreRel_zero (H hd : ℕ) (scale : ℚ) (P : AttnParams) (q kv : T3Q)
    (b t h : ℕ) :
    scoreRel H hd scale P q kv (fun _ _ _ _ => 0) b t h =
      scorePlain H hd scale P q kv b t h := by
  funext s
  unfold scoreRel scorePlain
  congr 1
  exact sumF_congr hd _ _ (fun d _ => by rw [add_zero])

/-- With zero relation key/value biases, the with-relation attention block
computes exactly the plain block (same mask, any masked-softmax semantics). -/
theorem attnOutRel_zero (H nh hd S : ℕ) (scale : ℚ) (P : AttnParams)
    (smaxF : SmaxT) (rsq : ℚ → ℚ) (q kv : T3Q) (mask : Option MaskT) :
    attnOutRel H nh hd S scale P smaxF rsq q kv (fun _ _ _ _ => 0)
        (fun _ _ _ _ => 0) mask =
      attnOutPlain H nh hd S scale P smaxF rsq q kv mask := by
  funext b t f
  unfold attnOutRel attnOutPlain
  simp only [scoreRel_zero, add_zero]

theorem astormerLayerOut_zero (T S H nh hd : ℕ) (L : AstormerLayerParams)
    (smaxF : SmaxT) (rsq : ℚ → ℚ) (q kv : T3Q) (m : MaskT)
    (encMask : Option (ℕ → ℕ → Bool)) :
    astormerLayerOut T S H nh hd L smaxF rsq q kv
        (some (fun _ _ _ _ => 0, fun _ _ _ _ => 0)) m encMask =
      astormerLayerOut T S H nh hd L smaxF rsq q kv none m encMask := by
  dsimp only [astormerLayerOut]
  rw [attnOutRel_zero]

theorem astormerIter_zero (T S H nh hd : ℕ) (layers : ℕ → AstormerLayerParams)
    (smaxF : SmaxT) (rsq : ℚ → ℚ) (kv : T3Q) (m : MaskT)
    (encMask : Option (ℕ → ℕ → Bool)) (q : T3Q) (n : ℕ) :
    astormerIter T S H nh hd layers smaxF rsq kv
        (some (fun _ _ _ _ => 0, fun _ _ _ _ => 0)) m encMask q n =
      astormerIter T S H nh hd layers smaxF rsq kv none m encMask q n := by
  induction n with
  | zero => rfl
  | succ k ih => simp only [astormerIter, ih, astormerLayerOut_zero]

theorem decoupledIter_allpad (T S H nh hd : ℕ)
    (layers : ℕ → DecoupledLayerParams) (E : ℚ → ℚ) (rsq : ℚ → ℚ)
    (prev kv : T3Q) (encMask : Option (ℕ → ℕ → Bool)) (q : T3Q) (n : ℕ) :
    decoupledIter T S H nh hd layers (smaxFill E negBigDec) rsq prev kv
        (some (fun _ _ _ _ => 0, fun _ _ _ _ => 0)) (some falseMask)
        (some (fun _ _ _ _ => 0, fun _ _ _ _ => 0)) (some falseMask)
        encMask q n =
      decoupledVariantIter T S H nh hd layers E rsq prev kv encMask q n := by
  induction n with
  | zero => rfl
  | succ k ih =>
    simp only [decoupledIter, decoupledVariantIter, ih, decoupledLayerOut]
    rw [attnOutRel_zero]
    rfl

/-- C1 (amended): supplying only-padding relation ids zeroes the relation
key/value biases — so the per-pair scores and values coincide with the
no-relation computation — but it also forces the combined self mask
`(rel_ids != pad) & tril` to be everywhere FALSE; the decoder output
(hidden states, `return_attention_weights=False`) therefore equals the
no-relation layer stack run with an all-false self mask (softmax over a fully
`-1e10`-filled row), not the call with relation ids omitted, which uses the
causal mask. The same holds for the decoupled stack, whose with-relation tgt
sub-block moreover queries with the layer input `q`. -/
theorem astormer_allpad_is_allfalse_mask (E : ℚ → ℚ) (rsq : ℚ → ℚ)
    (numLayers T S H nh hd : ℕ) (layers : ℕ → AstormerLayerParams)
    (layers2 : ℕ → DecoupledLayerParams) (embK embV : ℕ → ℕ → ℚ) (padIdx : ℕ)
    (q prev kv : T3Q) (relIds crossRelIds : ℕ → ℕ → ℕ → ℕ)
    (encMask : Option (ℕ → ℕ → Bool))
    (hK : ∀ d, embK padIdx d = 0) (hV : ∀ d, embV padIdx d = 0)
    (hr : ∀ b i j, relIds b i j = padIdx)
    (hr2 : ∀ b i j, crossRelIds b i j = padIdx) :
    astormerForwardOut E rsq numLayers T S H nh hd layers embK embV padIdx
        q kv (some relIds) encMask =
      astormerStackPlainMask E rsq numLayers T S H nh hd layers q kv
        falseMask encMask ∧
    astormerForwardOut E rsq numLayers T S H nh hd layers embK embV padIdx
        q kv none encMask =
      astormerStackPlainMask E rsq numLayers T S H nh hd layers q kv
        trilMask encMask ∧
    decoupledForwardOut E rsq numLayers T S H nh hd layers2 embK embV padIdx
        q prev kv (some relIds) (some crossRelIds) encMask =
      decoupledVariantIter T S H nh hd layers2 E rsq prev kv encMask q
        numLayers := by
  have hlk : relLookup embK relIds = (fun _ _ _ _ => (0 : ℚ)) := by
    funext b i j d
    rw [relLookup, hr b i j, hK d]
  have hlv : relLookup embV relIds = (fun _ _ _ _ => (0 : ℚ)) := by
    funext b i j d
    rw [relLookup, hr b i j, hV d]
  have hlk2 : relLookup embK crossRelIds = (fun _ _ _ _ => (0 : ℚ)) := by
    funext b i j d
    rw [relLookup, hr2 b i j, hK d]
  have hlv2 : relLookup embV crossRelIds = (fun _ _ _ _ => (0 : ℚ)) := by
    funext b i j d
    rw [relLookup, hr2 b i j, hV d]
  have hm : astormerRelMask padIdx (some relIds) = falseMask := by
    funext b i j
    simp [astormerRelMask, falseMask, hr b i j]
  have hm2 : astormerRelMask padIdx (some crossRelIds) = falseMask := by
    funext b i j
    simp [astormerRelMask, falseMask, hr2 b i j]
  refine ⟨?_, ?_, ?_⟩
  · unfold astormerForwardOut astormerStackPlainMask
    simp only [Option.map_some']
    rw [hlk, hlv, hm]
    exact astormerIter_zero T S H nh hd layers (smaxFill E negBigDec) rsq kv
      falseMask encMask q numLayers
  · unfold astormerForwardOut astormerStackPlainMask
    simp only [Option.map_none']
    have : astormerRelMask padIdx none = trilMask := by
      funext b i j
      rfl
    rw [this]
  · unfold decoupledForwardOut
    simp only [Option.map_some']
    rw [hlk, hlv, hlk2, hlv2, hm, hm2]
    exact decoupledIter_allpad T S H nh hd layers2 E rsq prev kv encMask q
      numLayers

/-- C1 amended-claim witness: zero embedding table, padding id 7, all-padding
relation tensors, one layer of each stack kind. -/
theorem astormer_allpad_is_allfalse_mask_witness :
    (∀ d, zeroEmb 7 d = 0) ∧
    (∀ b i j : ℕ, (fun (_ _ _ : ℕ) => (7 : ℕ)) b i j = 7) ∧
    (astormerForwardOut constE1 rsqOne 1 1 1 1 1 1
        (fun _ => ⟨attnPOnes, attnPOnes, ffnPZero, 1⟩) zeroEmb zeroEmb 7
        zeroT3 zeroT3 (some (fun _ _ _ => 7)) none =
      astormerStackPlainMask constE1 rsqOne 1 1 1 1 1 1
        (fun _ => ⟨attnPOnes, attnPOnes, ffnPZero, 1⟩) zeroT3 zeroT3
        falseMask none ∧
    astormerForwardOut constE1 rsqOne 1 1 1 1 1 1
        (fun _ => ⟨attnPOnes, attnPOnes, ffnPZero, 1⟩) zeroEmb zeroEmb 7
        zeroT3 zeroT3 none none =
      astormerStackPlainMask constE1 rsqOne 1 1 1 1 1 1
        (fun _ => ⟨attnPOnes, attnPOnes, ffnPZero, 1⟩) zeroT3 zeroT3
        trilMask none ∧
    decoupledForwardOut constE1 rsqOne 1 1 1 1 1 1 (fun _ => decoupledLCex)
        zeroEmb zeroEmb 7 zeroT3 zeroT3 zeroT3 (some (fun _ _ _ => 7))
        (some (fun _ _ _ => 7)) none =
      decoupledVariantIter 1 1 1 1 1 (fun _ => decoupledLCex) constE1 rsqOne
        zeroT3 zeroT3 none zeroT3 1) :=
  ⟨fun _ => rfl, fun _ _ _ => rfl,
    astormer_allpad_is_allfalse_mask constE1 rsqOne 1 1 1 1 1 1
      (fun _ => ⟨attnPOnes, attnPOnes, ffnPZero, 1⟩) (fun _ => decoupledLCex)
      zeroEmb zeroEmb 7 zeroT3 zeroT3 zeroT3 (fun _ _ _ => 7) (fun _ _ _ => 7)
      none (fun _ => rfl) (fun _ => rfl) (fun _ _ _ => rfl) (fun _ _ _ => rfl)⟩

/-- C1 counterexample: a concrete call where every relation id equals the
padding id. The decoder output (here the diagnostics component of
`Astormer.forward`, first layer, batch 0, head 0, row 0, column 0) is `1/2`
— the fully-masked row is uniform — while the same call with `rel_ids=None`
gives `2/3` under the causal mask, so the two calls do NOT return equal
outputs. -/
theorem astormer_allpad_ne_none_cex :
    astormerForwardWeights stepE rsqOne 2 1 1 1 1
        (fun _ => ⟨attnPOnes, attnPOnes, ffnPZero, 1⟩) zeroEmb zeroEmb 7
        oneT3 zeroT3 (some (fun _ _ _ => 7)) none 0 0 0 0 0 ≠
      astormerForwardWeights stepE rsqOne 2 1 1 1 1
        (fun _ => ⟨attnPOnes, attnPOnes, ffnPZero, 1⟩) zeroEmb zeroEmb 7
        oneT3 zeroT3 none none 0 0 0 0 0 := by
  norm_num [astormerForwardWeights, astormerLayerWeights, astormerIter,
    astormerRelMask, relLookup, attnWeightsRel, attnWeightsPlain, scoreRel,
    scorePlain, projQ, projK, projV, affineRow, linRow, smaxFill, maskedScore,
    softmaxRow, sumF, negBigDec, stepE, rsqOne, attnPOnes, ffnPZero, zeroEmb,
    oneT3, zeroT3, onesW, zeroV, oneV]

-- ## C4: causal invariance of the decoder self-attention stack

/-- Two hidden-state tensors agreeing at every position up to `t`. -/
def AgreeUpTo (t : ℕ) (x y : T3Q) : Prop :=
  ∀ b i f, i ≤ t → x b i f = y b i f

theorem layerNorm_congr (H : ℕ) (lnG lnB : ℕ → ℚ) (rsq : ℚ → ℚ)
    (x y : ℕ → ℚ) (h : ∀ k, x k = y k) (f : ℕ) :
    layerNorm H lnG lnB rsq x f = layerNorm H lnG lnB rsq y f := by
  rw [funext h]

theorem affineRow_congr (n : ℕ) (W : ℕ → ℕ → ℚ) (bv : ℕ → ℚ) (x y : ℕ → ℚ)
    (h : ∀ j, x j = y j) (o : ℕ) :
    affineRow n W bv x o = affineRow n W bv y o := by
  rw [funext h]

theorem linRow_congr (n : ℕ) (W : ℕ → ℕ → ℚ) (x y : ℕ → ℚ)
    (h : ∀ j, x j = y j) (o : ℕ) :
    linRow n W x o = linRow n W y o := by
  rw [funext h]

theorem ffnForward_congr (H : ℕ) (P : FFNParams) (rsq : ℚ → ℚ)
    (x y : ℕ → ℚ) (h : ∀ k, x k = y k) (f : ℕ) :
    ffnForward H P rsq x f = ffnForward H P rsq y f := by
  rw [funext h]

theorem projQ_agree (H hd : ℕ) (P : AttnParams) (q q' : T3Q) (t : ℕ)
    (hq : AgreeUpTo t q q') (b i h d : ℕ) (hi : i ≤ t) :
    projQ H hd P q b i h d = projQ H hd P q' b i h d := by
  unfold projQ
  exact affineRow_congr H P.Wq P.bq _ _ (fun f => by rw [hq b i f hi]) _

theorem projK_agree (H hd : ℕ) (P : AttnParams) (q q' : T3Q) (t : ℕ)
    (hq : AgreeUpTo t q q') (b s h d : ℕ) (hs : s ≤ t) :
    projK H hd P q b s h d = projK H hd P q' b s h d := by
  unfold projK
  exact linRow_congr H P.Wk _ _ (fun f => by rw [hq b s f hs]) _

theorem projV_agree (H hd : ℕ) (P : AttnParams) (q q' : T3Q) (t : ℕ)
    (hq : AgreeUpTo t q q') (b s h d : ℕ) (hs : s ≤ t) :
    projV H hd P q b s h d = projV H hd P q' b s h d := by
  unfold projV
  exact linRow_congr H P.Wv _ _ (fun f => by rw [hq b s f hs]) _

theorem scoreRel_agree (H hd : ℕ) (scale : ℚ) (P : AttnParams)
    (q q' : T3Q) (rk : T4Q) (t : ℕ) (hq : AgreeUpTo t q q')
    (b i h k : ℕ) (hi : i ≤ t) (hk : k ≤ t) :
    scoreRel H hd scale P q q rk b i h k =
      scoreRel H hd scale P q' q' rk b i h k := by
  unfold scoreRel
  congr 1
  exact sumF_congr hd _ _ (fun d _ => by
    rw [projQ_agree H hd P q q' t hq b i h d hi,
      projK_agree H hd P q q' t hq b k h d hk])

theorem scorePlain_agree (H hd : ℕ) (scale : ℚ) (P : AttnParams)
    (q q' : T3Q) (t : ℕ) (hq : AgreeUpTo t q q')
    (b i h k : ℕ) (hi : i ≤ t) (hk : k ≤ t) :
    scorePlain H hd scale P q q b i h k =
      scorePlain H hd scale P q' q' b i h k := by
  unfold scorePlain
  congr 1
  exact sumF_congr hd _ _ (fun d _ => by
    rw [projQ_agree H hd P q q' t hq b i h d hi,
      projK_agree H hd P q q' t hq b k h d hk])

/-- Weighted-value term of the idealized self-attention row: masked
positions contribute exactly 0 on both runs; unmasked positions are causal
(`s ≤ i ≤ t`), so scores, normalizer and values all agree. -/
theorem smaxIdeal_relterm_agree (H hd S : ℕ) (scale : ℚ) (P : AttnParams)
    (E : ℚ → ℚ) (q q' : T3Q) (rk rv : T4Q) (m : MaskT) (t : ℕ)
    (hm : ∀ b i j, m b i j = true → j ≤ i) (hq : AgreeUpTo t q q')
    (b i h d s : ℕ) (hi : i ≤ t) :
    smaxIdeal E (some (fun j => m b i j)) S (scoreRel H hd scale P q q rk b i h) s *
      (projV H hd P q b s h d + rv b i s d) =
    smaxIdeal E (some (fun j => m b i j)) S (scoreRel H hd scale P q' q' rk b i h) s *
      (projV H hd P q' b s h d + rv b i s d) := by
  by_cases hms : m b i s = true
  · have hsi : s ≤ i := hm b i s hms
    have hst : s ≤ t := le_trans hsi hi
    have hden : sumF S (fun k => if m b i k then E (scoreRel H hd scale P q q rk b i h k) else 0) =
        sumF S (fun k => if m b i k then E (scoreRel H hd scale P q' q' rk b i h k) else 0) := by
      refine sumF_congr S _ _ (fun k _ => ?_)
      by_cases hmk : m b i k = true
      · rw [if_pos hmk, if_pos hmk,
          scoreRel_agree H hd scale P q q' rk t hq b i h k hi
            (le_trans (hm b i k hmk) hi)]
      · rw [if_neg hmk, if_neg hmk]
    simp only [smaxIdeal, hms, if_pos]
    rw [hden, scoreRel_agree H hd scale P q q' rk t hq b i h s hi hst,
      projV_agree H hd P q q' t hq b s h d hst]
  · simp only [smaxIdeal, hms, if_neg, Bool.false_eq_true, if_false, zero_mul]

/-- Same statement for the plain (no-relation) self-attention term. -/
theorem smaxIdeal_plainterm_agree (H hd S : ℕ) (scale : ℚ) (P : AttnParams)
    (E : ℚ → ℚ) (q q' : T3Q) (m : MaskT) (t : ℕ)
    (hm : ∀ b i j, m b i j = true → j ≤ i) (hq : AgreeUpTo t q q')
    (b i h d s : ℕ) (hi : i ≤ t) :
    smaxIdeal E (some (fun j => m b i j)) S (scorePlain H hd scale P q q b i h) s *
      projV H hd P q b s h d =
    smaxIdeal E (some (fun j => m b i j)) S (scorePlain H hd scale P q' q' b i h) s *
      projV H hd P q' b s h d := by
  by_cases hms : m b i s = true
  · have hsi : s ≤ i := hm b i s hms
    have hst : s ≤ t := le_trans hsi hi
    have hden : sumF S (fun k => if m b i k then E (scorePlain H hd scale P q q b i h k) else 0) =
        sumF S (fun k => if m b i k then E (scorePlain H hd scale P q' q' b i h k) else 0) := by
      refine sumF_congr S _ _ (fun k _ => ?_)
      by_cases hmk : m b i k = true
      · rw [if_pos hmk, if_pos hmk,
          scorePlain_agree H hd scale P q q' t hq b i h k hi
            (le_trans (hm b i k hmk) hi)]
      · rw [if_neg hmk, if_neg hmk]
    simp only [smaxIdeal, hms, if_pos]
    rw [hden, scorePlain_agree H hd scale P q q' t hq b i h s hi hst,
      projV_agree H hd P q q' t hq b s h d hst]
  · simp only [smaxIdeal, hms, if_neg, Bool.false_eq_true, if_false, zero_mul]

theorem attnOutRel_ideal_agree (H nh hd S : ℕ) (scale : ℚ) (P : AttnParams)
    (E : ℚ → ℚ) (rsq : ℚ → ℚ) (q q' : T3Q) (rk rv : T4Q) (m : MaskT) (t : ℕ)
    (hm : ∀ b i j, m b i j = true → j ≤ i) (hq : AgreeUpTo t q q') :
    AgreeUpTo t
      (attnOutRel H nh hd S scale P (smaxIdeal E) rsq q q rk rv (some m))
      (attnOutRel H nh hd S scale P (smaxIdeal E) rsq q' q' rk rv (some m)) := by
  intro b i f hi
  unfold attnOutRel
  simp only [Option.map_some']
  refine layerNorm_congr H P.lnG P.lnB rsq _ _ (fun f2 => ?_) f
  rw [hq b i f2 hi]
  congr 1
  refine affineRow_congr H P.Wo P.bo _ _ (fun g => ?_) f2
  refine sumF_congr S _ _ (fun s _ => ?_)
  exact smaxIdeal_relterm_agree H hd S scale P E q q' rk rv m t hm hq
    b i (g / hd) (g % hd) s hi

theorem attnOutPlain_ideal_agree (H nh hd S : ℕ) (scale : ℚ) (P : AttnParams)
    (E : ℚ → ℚ) (rsq : ℚ → ℚ) (q q' : T3Q) (m : MaskT) (t : ℕ)
    (hm : ∀ b i j, m b i j = true → j ≤ i) (hq : AgreeUpTo t q q') :
    AgreeUpTo t
      (attnOutPlain H nh hd S scale P (smaxIdeal E) rsq q q (some m))
      (attnOutPlain H nh hd S scale P (smaxIdeal E) rsq q' q' (some m)) := by
  intro b i f hi
  unfold attnOutPlain
  simp only [Option.map_some']
  refine layerNorm_congr H P.lnG P.lnB rsq _ _ (fun f2 => ?_) f
  rw [hq b i f2 hi]
  congr 1
  refine affineRow_congr H P.Wo P.bo _ _ (fun g => ?_) f2
  refine sumF_congr S _ _ (fun s _ => ?_)
  exact smaxIdeal_plainterm_agree H hd S scale P E q q' m t hm hq
    b i (g / hd) (g % hd) s hi

/-- Cross-attention: key/value source fixed, so positions mix only across the
encoder axis and agreement in the query propagates (any softmax semantics,
any mask). -/
theorem attnOutPlain_query_agree (H nh hd S : ℕ) (scale : ℚ) (P : AttnParams)
    (smaxF : SmaxT) (rsq : ℚ → ℚ) (x x' kv : T3Q) (maskc : Option MaskT)
    (t : ℕ) (hx : AgreeUpTo t x x') :
    AgreeUpTo t
      (attnOutPlain H nh hd S scale P smaxF rsq x kv maskc)
      (attnOutPlain H nh hd S scale P smaxF rsq x' kv maskc) := by
  intro b i f hi
  unfold attnOutPlain
  have hscore : ∀ h, scorePlain H hd scale P x kv b i h =
      scorePlain H hd scale P x' kv b i h := by
    intro h
    funext s
    unfold scorePlain
    congr 1
    exact sumF_congr hd _ _ (fun d _ => by
      rw [projQ_agree H hd P x x' t hx b i h d hi])
  refine layerNorm_congr H P.lnG P.lnB rsq _ _ (fun f2 => ?_) f
  rw [hx b i f2 hi]
  congr 1
  refine affineRow_congr H P.Wo P.bo _ _ (fun g => ?_) f2
  refine sumF_congr S _ _ (fun s _ => ?_)
  rw [hscore (g / hd)]

theorem astormerRelMask_causal (padIdx : ℕ) (relIds : Option (ℕ → ℕ → ℕ → ℕ))
    (b i j : ℕ) (h : astormerRelMask padIdx relIds b i j = true) : j ≤ i := by
  cases relIds with
  | none => simpa [astormerRelMask] using h
  | some r =>
    have h2 : ¬ r b i j = padIdx ∧ j ≤ i := by simpa [astormerRelMask] using h
    exact h2.2

theorem astormerLayerOut_ideal_agree (T S H nh hd : ℕ)
    (L : AstormerLayerParams) (E : ℚ → ℚ) (rsq : ℚ → ℚ) (kv : T3Q)
    (relKV : Option (T4Q × T4Q)) (relMask : MaskT)
    (encMask : Option (ℕ → ℕ → Bool)) (t : ℕ)
    (hm : ∀ b i j, relMask b i j = true → j ≤ i) (q q' : T3Q)
    (hq : AgreeUpTo t q q') :
    AgreeUpTo t
      (astormerLayerOut T S H nh hd L (smaxIdeal E) rsq q kv relKV relMask encMask)
      (astormerLayerOut T S H nh hd L (smaxIdeal E) rsq q' kv relKV relMask encMask) := by
  have h1 : AgreeUpTo t
      (match relKV with
        | some rkv => attnOutRel H nh hd T L.scale L.selfP (smaxIdeal E) rsq q q rkv.1 rkv.2 (some relMask)
        | none => attnOutPlain H nh hd T L.scale L.selfP (smaxIdeal E) rsq q q (some relMask))
      (match relKV with
        | some rkv => attnOutRel H nh hd T L.scale L.selfP (smaxIdeal E) rsq q' q' rkv.1 rkv.2 (some relMask)
        | none => attnOutPlain H nh hd T L.scale L.selfP (smaxIdeal E) rsq q' q' (some relMask)) := by
    cases relKV with
    | none => exact attnOutPlain_ideal_agree H nh hd T L.scale L.selfP E rsq q q' relMask t hm hq
    | some rkv => exact attnOutRel_ideal_agree H nh hd T L.scale L.selfP E rsq q q' rkv.1 rkv.2 relMask t hm hq
  have h2 := attnOutPlain_query_agree H nh hd S L.scale L.crossP (smaxIdeal E)
    rsq _ _ kv (Option.map (fun m => fun b _ s => m b s) encMask) t h1
  intro b i f hi
  unfold astormerLayerOut
  exact ffnForward_congr H L.ffnP rsq _ _ (fun g => h2 b i g hi) f

theorem astormerIter_ideal_agree (T S H nh hd : ℕ)
    (layers : ℕ → AstormerLayerParams) (E : ℚ → ℚ) (rsq : ℚ → ℚ) (kv : T3Q)
    (relKV : Option (T4Q × T4Q)) (relMask : MaskT)
    (encMask : Option (ℕ → ℕ → Bool)) (t : ℕ)
    (hm : ∀ b i j, relMask b i j = true → j ≤ i) (q q' : T3Q)
    (hq : AgreeUpTo t q q') (n : ℕ) :
    AgreeUpTo t
      (astormerIter T S H nh hd layers (smaxIdeal E) rsq kv relKV relMask encMask q n)
      (astormerIter T S H nh hd layers (smaxIdeal E) rsq kv relKV relMask encMask q' n) := by
  induction n with
  | zero => exact hq
  | succ k ih =>
    exact astormerLayerOut_ideal_agree T S H nh hd (layers k) E rsq kv relKV
      relMask encMask t hm _ _ ih

/-- `DecoupledAstormer.forward` with the idealized masked softmax (masked
positions get exactly zero attention weight — the float behaviour of the
`-1e10` fill). -/
def decoupledForwardIdeal (E : ℚ → ℚ) (rsq : ℚ → ℚ) (numLayers T S H nh hd : ℕ)
    (layers : ℕ → DecoupledLayerParams) (embK embV : ℕ → ℕ → ℚ) (padIdx : ℕ)
    (q prev kv : T3Q) (relIds crossRelIds : Option (ℕ → ℕ → ℕ → ℕ))
    (encMask : Option (ℕ → ℕ → Bool)) : T3Q :=
  decoupledIter T S H nh hd layers (smaxIdeal E) rsq prev kv
    (Option.map (fun r => (relLookup embK r, relLookup embV r)) relIds)
    (some (astormerRelMask padIdx relIds))
    (Option.map (fun r => (relLookup embK r, relLookup embV r)) crossRelIds)
    (some (astormerRelMask padIdx crossRelIds)) encMask q numLayers

/-- Relation-biased attention with a FIXED key/value source: agreement in the
query propagates for any softmax semantics and any mask, since the keys,
values and relation biases are unchanged (used for the decoupled tgt
sub-block, whose with-relation branch queries with the layer input). -/
theorem attnOutRel_query_agree (H nh hd S : ℕ) (scale : ℚ) (P : AttnParams)
    (smaxF : SmaxT) (rsq : ℚ → ℚ) (x x' kv : T3Q) (rk rv : T4Q)
    (maskc : Option MaskT) (t : ℕ) (hx : AgreeUpTo t x x') :
    AgreeUpTo t
      (attnOutRel H nh hd S scale P smaxF rsq x kv rk rv maskc)
      (attnOutRel H nh hd S scale P smaxF rsq x' kv rk rv maskc) := by
  intro b i f hi
  unfold attnOutRel
  have hscore : ∀ h, scoreRel H hd scale P x kv rk b i h =
      scoreRel H hd scale P x' kv rk b i h := by
    intro h
    funext s
    unfold scoreRel
    congr 1
    exact sumF_congr hd _ _ (fun d _ => by
      rw [projQ_agree H hd P x x' t hx b i h d hi])
  refine layerNorm_congr H P.lnG P.lnB rsq _ _ (fun f2 => ?_) f
  rw [hx b i f2 hi]
  congr 1
  refine affineRow_congr H P.Wo P.bo _ _ (fun g => ?_) f2
  refine sumF_congr S _ _ (fun s _ => ?_)
  rw [hscore (g / hd)]

theorem decoupledLayerOut_ideal_agree (T S H nh hd : ℕ)
    (L : DecoupledLayerParams) (E : ℚ → ℚ) (rsq : ℚ → ℚ) (prev kv : T3Q)
    (selfRels : Option (T4Q × T4Q)) (m : MaskT)
    (tgtRels : Option (T4Q × T4Q)) (tgtMask : Option MaskT)
    (encMask : Option (ℕ → ℕ → Bool)) (t : ℕ)
    (hm : ∀ b i j, m b i j = true → j ≤ i) (q q' : T3Q)
    (hq : AgreeUpTo t q q') :
    AgreeUpTo t
      (decoupledLayerOut T S H nh hd L (smaxIdeal E) rsq q prev kv selfRels
        (some m) tgtRels tgtMask encMask)
      (decoupledLayerOut T S H nh hd L (smaxIdeal E) rsq q' prev kv selfRels
        (some m) tgtRels tgtMask encMask) := by
  cases selfRels with
  | none =>
    have h1 := attnOutPlain_ideal_agree H nh hd T L.scale L.selfP E rsq q q'
      m t hm hq
    cases tgtRels with
    | none =>
      have h2 := attnOutPlain_query_agree H nh hd T L.scale L.tgtP
        (smaxIdeal E) rsq _ _ prev tgtMask t h1
      have h3 := attnOutPlain_query_agree H nh hd S L.scale L.crossP
        (smaxIdeal E) rsq _ _ kv
        (Option.map (fun mm => fun b _ s => mm b s) encMask) t h2
      intro b i f hi
      unfold decoupledLayerOut
      exact ffnForward_congr H L.ffnP rsq _ _ (fun g => h3 b i g hi) f
    | some rkv =>
      have h2 := attnOutRel_query_agree H nh hd T L.scale L.tgtP
        (smaxIdeal E) rsq q q' prev rkv.1 rkv.2 tgtMask t hq
      have h3 := attnOutPlain_query_agree H nh hd S L.scale L.crossP
        (smaxIdeal E) rsq _ _ kv
        (Option.map (fun mm => fun b _ s => mm b s) encMask) t h2
      intro b i f hi
      unfold decoupledLayerOut
      exact ffnForward_congr H L.ffnP rsq _ _ (fun g => h3 b i g hi) f
  | some srkv =>
    have h1 := attnOutRel_ideal_agree H nh hd T L.scale L.selfP E rsq q q'
      srkv.1 srkv.2 m t hm hq
    cases tgtRels with
    | none =>
      have h2 := attnOutPlain_query_agree H nh hd T L.scale L.tgtP
        (smaxIdeal E) rsq _ _ prev tgtMask t h1
      have h3 := attnOutPlain_query_agree H nh hd S L.scale L.crossP
        (smaxIdeal E) rsq _ _ kv
        (Option.map (fun mm => fun b _ s => mm b s) encMask) t h2
      intro b i f hi
      unfold decoupledLayerOut
      exact ffnForward_congr H L.ffnP rsq _ _ (fun g => h3 b i g hi) f
    | some rkv =>
      have h2 := attnOutRel_query_agree H nh hd T L.scale L.tgtP
        (smaxIdeal E) rsq q q' prev rkv.1 rkv.2 tgtMask t hq
      have h3 := attnOutPlain_query_agree H nh hd S L.scale L.crossP
        (smaxIdeal E) rsq _ _ kv
        (Option.map (fun mm => fun b _ s => mm b s) encMask) t h2
      intro b i f hi
      unfold decoupledLayerOut
      exact ffnForward_congr H L.ffnP rsq _ _ (fun g => h3 b i g hi) f

theorem decoupledIter_ideal_agree (T S H nh hd : ℕ)
    (layers : ℕ → DecoupledLayerParams) (E : ℚ → ℚ) (rsq : ℚ → ℚ)
    (prev kv : T3Q) (selfRels : Option (T4Q × T4Q)) (m : MaskT)
    (tgtRels : Option (T4Q × T4Q)) (tgtMask : Option MaskT)
    (encMask : Option (ℕ → ℕ → Bool)) (t : ℕ)
    (hm : ∀ b i j, m b i j = true → j ≤ i) (q q' : T3Q)
    (hq : AgreeUpTo t q q') (n : ℕ) :
    AgreeUpTo t
      (decoupledIter T S H nh hd layers (smaxIdeal E) rsq prev kv selfRels
        (some m) tgtRels tgtMask encMask q n)
      (decoupledIter T S H nh hd layers (smaxIdeal E) rsq prev kv selfRels
        (some m) tgtRels tgtMask encMask q' n) := by
  induction n with
  | zero => exact hq
  | succ k ih =>
    exact decoupledLayerOut_ideal_agree T S H nh hd (layers k) E rsq prev kv
      selfRels m tgtRels tgtMask encMask t hm _ _ ih

/-- C4 (amended): for BOTH decoder stacks — the coupled `Astormer` and the
`DecoupledAstormer` — under the idealized masking (masked attention weights
exactly zero, the IEEE-float effect of the `-1e10` fill, where `exp`
underflows), with or without relation ids, the output at position `t` is
unchanged when the query input is modified at positions strictly greater
than `t`, given identical dropout multipliers. -/
theorem decoder_ideal_causal_invariance (E : ℚ → ℚ) (rsq : ℚ → ℚ)
    (numLayers T S H nh hd : ℕ) (layers : ℕ → AstormerLayerParams)
    (layers2 : ℕ → DecoupledLayerParams) (embK embV : ℕ → ℕ → ℚ)
    (padIdx : ℕ) (kv prev q q' : T3Q)
    (relIds crossRelIds : Option (ℕ → ℕ → ℕ → ℕ))
    (encMask : Option (ℕ → ℕ → Bool)) (t : ℕ)
    (hq : ∀ b i f, i ≤ t → q b i f = q' b i f) :
    (∀ b f, astormerForwardIdeal E rsq numLayers T S H nh hd layers embK embV
        padIdx q kv relIds encMask b t f =
      astormerForwardIdeal E rsq numLayers T S H nh hd layers embK embV
        padIdx q' kv relIds encMask b t f) ∧
    (∀ b f, decoupledForwardIdeal E rsq numLayers T S H nh hd layers2 embK
        embV padIdx q prev kv relIds crossRelIds encMask b t f =
      decoupledForwardIdeal E rsq numLayers T S H nh hd layers2 embK embV
        padIdx q' prev kv relIds crossRelIds encMask b t f) := by
  constructor
  · intro b f
    unfold astormerForwardIdeal
    exact astormerIter_ideal_agree T S H nh hd layers E rsq kv _ _ encMask t
      (astormerRelMask_causal padIdx relIds) q q' hq numLayers b t f le_rfl
  · intro b f
    unfold decoupledForwardIdeal
    exact decoupledIter_ideal_agree T S H nh hd layers2 E rsq prev kv _ _ _ _
      encMask t (astormerRelMask_causal padIdx relIds) q q' hq numLayers
      b t f le_rfl

/-- C4 amended-claim witness: one ideal-masked layer of each stack kind, two
inputs that agree at position 0 and differ at position 1, compared at
`t = 0`. -/
theorem decoder_ideal_causal_invariance_witness :
    (∀ b i f : ℕ, i ≤ 0 →
      (fun (_ i _ : ℕ) => if i = 0 then (1 : ℚ) else 5) b i f =
      (fun (_ i _ : ℕ) => if i = 0 then (1 : ℚ) else 7) b i f) ∧
    (∀ b f, astormerForwardIdeal constE1 rsqOne 1 2 1 1 1 1
        (fun _ => ⟨attnPOnes, attnPOnes, ffnPZero, 1⟩) zeroEmb zeroEmb 7
        (fun (_ i _ : ℕ) => if i = 0 then (1 : ℚ) else 5) zeroT3 none none
        b 0 f =
      astormerForwardIdeal constE1 rsqOne 1 2 1 1 1 1
        (fun _ => ⟨attnPOnes, attnPOnes, ffnPZero, 1⟩) zeroEmb zeroEmb 7
        (fun (_ i _ : ℕ) => if i = 0 then (1 : ℚ) else 7) zeroT3 none none
        b 0 f) ∧
    (∀ b f, decoupledForwardIdeal constE1 rsqOne 1 2 1 1 1 1
        (fun _ => decoupledLCex) zeroEmb zeroEmb 7
        (fun (_ i _ : ℕ) => if i = 0 then (1 : ℚ) else 5) zeroT3 zeroT3
        none none none b 0 f =
      decoupledForwardIdeal constE1 rsqOne 1 2 1 1 1 1
        (fun _ => decoupledLCex) zeroEmb zeroEmb 7
        (fun (_ i _ : ℕ) => if i = 0 then (1 : ℚ) else 7) zeroT3 zeroT3
        none none none b 0 f) :=
  ⟨fun b i f h => by
      have h0 : i = 0 := Nat.le_zero.mp h
      subst h0
      rfl,
    (decoder_ideal_causal_invariance constE1 rsqOne 1 2 1 1 1 1
      (fun _ => ⟨attnPOnes, attnPOnes, ffnPZero, 1⟩) (fun _ => decoupledLCex)
      zeroEmb zeroEmb 7 zeroT3 zeroT3
      (fun (_ i _ : ℕ) => if i = 0 then (1 : ℚ) else 5)
      (fun (_ i _ : ℕ) => if i = 0 then (1 : ℚ) else 7) none none none 0
      (fun b i f h => by
        have h0 : i = 0 := Nat.le_zero.mp h
        subst h0
        rfl)).1,
    (decoder_ideal_causal_invariance constE1 rsqOne 1 2 1 1 1 1
      (fun _ => ⟨attnPOnes, attnPOnes, ffnPZero, 1⟩) (fun _ => decoupledLCex)
      zeroEmb zeroEmb 7 zeroT3 zeroT3
      (fun (_ i _ : ℕ) => if i = 0 then (1 : ℚ) else 5)
      (fun (_ i _ : ℕ) => if i = 0 then (1 : ℚ) else 7) none none none 0
      (fun b i f h => by
        have h0 : i = 0 := Nat.le_zero.mp h
        subst h0
        rfl)).2⟩

/-- Astormer layer parameters for the C4 counterexample. -/
def astormerLC4 : AstormerLayerParams :=
  { selfP := attnPId, crossP := attnPAllZero, ffnP := ffnPZero, scale := 1 }

/-- Query for the second C4 run: position 0 zero, position 1 is `(2, 0)`. -/
def qC4 : T3Q := fun _ i f => if i = 0 then 0 else (if f = 0 then 2 else 0)

/-- C4 counterexample (exact arithmetic): two runs agreeing at every feature
of position 0 but differing at position 1; under the source's `-1e10`
masked-softmax, the masked future key keeps the positive weight
`E(-1e10)/Z`, so the hidden-state output at position 0 changes (`0` vs
`1/2`): the exact-equality claim fails on the code as written. -/
theorem astormer_causal_invariance_cex :
    zeroT3 0 0 0 = qC4 0 0 0 ∧ zeroT3 0 0 1 = qC4 0 0 1 ∧
    astormerForwardOut constE1 rsqOne 1 2 1 2 2 1 (fun _ => astormerLC4)
        zeroEmb zeroEmb 7 zeroT3 zeroT3 none none 0 0 0 ≠
      astormerForwardOut constE1 rsqOne 1 2 1 2 2 1 (fun _ => astormerLC4)
        zeroEmb zeroEmb 7 qC4 zeroT3 none none 0 0 0 := by
  refine ⟨rfl, rfl, ?_⟩
  norm_num [astormerForwardOut, astormerIter, astormerLayerOut,
    astormerRelMask, astormerLC4, attnPId, attnPAllZero, ffnPZero,
    attnOutRel, attnOutPlain, ffnForward, layerNorm, affineRow, linRow,
    projQ, projK, projV, scoreRel, scorePlain, smaxFill, maskedScore,
    softmaxRow, sumF, reluQ, negBigDec, qC4, zeroT3, constE1, rsqOne, oneV,
    zeroV, zeroW, idW, oneT3, zeroEmb]
